import Mathlib

/-!
Shallow embedding of the suruga TLS 1.2 client (klutzy/suruga) and proofs
about its record layer, handshake driver, PRF and AEAD code.

Conventions:
* bytes are `Nat` values (the wire always carries values < 256; theorems add
  range hypotheses where a claim quantifies over raw wire bytes);
* Rust `TlsResult` is `Except TlsErrorKind`; error description strings are
  dropped (no code in the repository inspects them);
* Rust code that can `panic!` / `unimplemented!` / `assert!` is modelled with
  the result type `RRes` which has an explicit `panic` outcome;
* the `Encryptor` / `Decryptor` trait objects of `cipher/mod.rs` are modelled
  as records of functions, exactly as the record layer is generic over
  `Box<Encryptor>` / `Box<Decryptor>` in `tls.rs`.
-/

namespace Suruga

/-- Byte strings: `Vec<u8>` / `&[u8]`. -/
abbrev Bytes := List Nat

/-- Error kinds of src/tls_result.rs (the `desc` string is dropped). -/
inductive TlsErrorKind where
| UnexpectedMessage
| BadRecordMac
| RecordOverflow
| IllegalParameter
| DecodeError
| DecryptError
| InternalError
| IoFailure
| AlertReceived
deriving DecidableEq, Repr

/-- Outcome of Rust code that may return `Ok`, return `Err`, or panic
(`panic!`, `unimplemented!`, failed `assert!`). -/
inductive RRes (α : Type) where
| ok (val : α)
| err (kind : TlsErrorKind)
| panic
deriving Repr

/-- Record content types (src/tls.rs `ContentType`). -/
inductive ContentType where
| ChangeCipherSpecTy
| AlertTy
| HandshakeTy
| ApplicationDataTy
deriving DecidableEq, Repr

/-- The `u8` discriminant of a content type. -/
def ContentType.toU8 : ContentType → Nat
| .ChangeCipherSpecTy => 20
| .AlertTy => 21
| .HandshakeTy => 22
| .ApplicationDataTy => 23

/-- `FromPrimitive::from_u8` for `ContentType`. -/
def ContentType.fromU8 (b : Nat) : Option ContentType :=
if b = 20 then some .ChangeCipherSpecTy
else if b = 21 then some .AlertTy
else if b = 22 then some .HandshakeTy
else if b = 23 then some .ApplicationDataTy
else none

/-- src/tls.rs: maximum plaintext fragment length, `1 << 14`. -/
def RECORD_MAX_LEN : Nat := 1 <<< 14

/-- src/tls.rs: maximum encrypted fragment length, `(1 << 14) + 2048`. -/
def ENC_RECORD_MAX_LEN : Nat := (1 <<< 14) + 2048

/-- src/tls.rs `Record` (a `TLSPlaintext`). -/
structure Record where
  contentType : ContentType
  verMajor : Nat
  verMinor : Nat
  fragment : Bytes
deriving Repr

/-- `Record::new`; panics when the fragment exceeds `RECORD_MAX_LEN`. -/
def Record.new (ct : ContentType) (maj mi : Nat) (fragment : Bytes) : RRes Record :=
if fragment.length > RECORD_MAX_LEN then .panic
else .ok ⟨ct, maj, mi, fragment⟩

/-- util.rs `u64_be_array`: the eight big-endian bytes of a `u64`. -/
def u64BeArray (x : Nat) : Bytes :=
[(x >>> 56) % 256, (x >>> 48) % 256, (x >>> 40) % 256, (x >>> 32) % 256,
 (x >>> 24) % 256, (x >>> 16) % 256, (x >>> 8) % 256, x % 256]

/-- util.rs `u64_le_array`: the eight little-endian bytes of a `u64`. -/
def u64LeArray (x : Nat) : Bytes :=
[x % 256, (x >>> 8) % 256, (x >>> 16) % 256, (x >>> 24) % 256,
 (x >>> 32) % 256, (x >>> 40) % 256, (x >>> 48) % 256, (x >>> 56) % 256]

/-- util.rs `ReadExt::read_u8` over a byte stream; an exhausted stream is an
I/O failure (EOF inside `fill_exact`). -/
def readU8 : Bytes → Except TlsErrorKind (Nat × Bytes)
| [] => .error .IoFailure
| b :: rest => .ok (b, rest)

/-- util.rs `ReadExt::read_be_u16`: two bytes, big-endian. -/
def readBeU16 (s : Bytes) : Except TlsErrorKind (Nat × Bytes) :=
match s with
| b1 :: b2 :: rest => .ok (b1 * 256 + b2, rest)
| _ => .error .IoFailure

/-- util.rs `ReadExt::read_exact len`: exactly `len` bytes or an I/O error. -/
def readExactBytes (n : Nat) (s : Bytes) : Except TlsErrorKind (Bytes × Bytes) :=
if s.length < n then .error .IoFailure else .ok (s.take n, s.drop n)

/-- A `Box<Decryptor>` value (cipher/mod.rs): `decrypt(nonce, encrypted, ad)`
plus `mac_len()`. -/
structure Decryptor where
  decrypt : Bytes → Bytes → Bytes → Except TlsErrorKind Bytes
  macLen : Nat

/-- State of src/tls.rs `TlsReader`: the remaining transport stream, the
optional decryptor, the record counter and the handshake reassembly buffer. -/
structure TlsReaderSt where
  stream : Bytes
  dec? : Option Decryptor
  readCount : Nat
  hsBuffer : Bytes

/-- src/tls.rs `TlsReader::read_record`.  Reads the 5-byte header, rejects
unknown content types and overlong declared lengths, reads the fragment and
(when a decryptor is installed) decrypts it. -/
def readRecord (s : TlsReaderSt) : RRes (Record × TlsReaderSt) :=
match readU8 s.stream with
| .error e => .err e
| .ok (ty, r1) =>
  match ContentType.fromU8 ty with
  | none => .err .UnexpectedMessage
  | some ct =>
    match readU8 r1 with
    | .error e => .err e
    | .ok (major, r2) =>
      match readU8 r2 with
      | .error e => .err e
      | .ok (minor, r3) =>
        match readBeU16 r3 with
        | .error e => .err e
        | .ok (len, r4) =>
          if len > ENC_RECORD_MAX_LEN then .err .RecordOverflow
          else
            match readExactBytes len r4 with
            | .error e => .err e
            | .ok (fragment, r5) =>
              match s.dec? with
              | none =>
                if fragment.length > RECORD_MAX_LEN then .err .RecordOverflow
                else
                  match Record.new ct major minor fragment with
                  | .ok rec => .ok (rec, { s with stream := r5, readCount := s.readCount + 1 })
                  | .err e => .err e
                  | .panic => .panic
              | some d =>
                let seqNum := u64BeArray s.readCount
                let macLen := d.macLen
                let totalLen := fragment.length
                if totalLen < macLen then .err .BadRecordMac
                else
                  let fragLen := (totalLen - macLen) % 65536
                  let ad := seqNum ++ [ct.toU8, major, minor, (fragLen >>> 8) % 256, fragLen % 256]
                  match d.decrypt seqNum fragment ad with
                  | .error e => .err e
                  | .ok data =>
                    if data.length > RECORD_MAX_LEN then .panic
                    else
                      match Record.new ct major minor data with
                      | .ok rec => .ok (rec, { s with stream := r5, readCount := s.readCount + 1 })
                      | .err e => .err e
                      | .panic => .panic

/-- A successful `read_record` consumes at least the 5 header bytes: the
remaining stream is strictly shorter.  (Stated here because the recursion in
`read_message` and in the client read loop terminates by this fact.) -/
theorem readRecord_ok_stream_lt (st : TlsReaderSt) (rec0 : Record) (st10 : TlsReaderSt)
    (hh : readRecord st = .ok (rec0, st10)) : st10.stream.length < st.stream.length := by
  unfold readRecord at hh
  cases hst : st.stream with
  | nil => rw [hst] at hh; simp only [readU8] at hh; cases hh
  | cons ty r1 =>
    rw [hst] at hh
    simp only [readU8] at hh
    cases hct : ContentType.fromU8 ty with
    | none => simp only [hct] at hh; cases hh
    | some ct =>
      simp only [hct] at hh
      cases r1 with
      | nil => simp only [readU8] at hh; cases hh
      | cons maj r2 =>
        simp only [readU8] at hh
        cases r2 with
        | nil => simp only [readU8] at hh; cases hh
        | cons mi r3 =>
          simp only [readU8] at hh
          cases r3 with
          | nil => simp only [readBeU16] at hh; cases hh
          | cons b3 r3a =>
            cases r3a with
            | nil => simp only [readBeU16] at hh; cases hh
            | cons b4 r4 =>
              simp only [readBeU16] at hh
              by_cases hmax : b3 * 256 + b4 > ENC_RECORD_MAX_LEN
              · rw [if_pos hmax] at hh; cases hh
              rw [if_neg hmax] at hh
              simp only [readExactBytes] at hh
              by_cases hav : r4.length < b3 * 256 + b4
              · rw [if_pos hav] at hh; cases hh
              rw [if_neg hav] at hh
              cases hdec : st.dec? with
              | none =>
                simp only [hdec] at hh
                by_cases hfl : (List.take (b3 * 256 + b4) r4).length > RECORD_MAX_LEN
                · rw [if_pos hfl] at hh; cases hh
                rw [if_neg hfl] at hh
                unfold Record.new at hh
                rw [if_neg hfl] at hh
                cases hh
                simp only [List.length_cons, List.length_drop]
                omega
              | some d =>
                simp only [hdec] at hh
                by_cases hshort : (List.take (b3 * 256 + b4) r4).length < d.macLen
                · rw [if_pos hshort] at hh; cases hh
                rw [if_neg hshort] at hh
                split at hh
                · cases hh
                · rename_i data heqd
                  by_cases hdl : data.length > RECORD_MAX_LEN
                  · rw [if_pos hdl] at hh; cases hh
                  · rw [if_neg hdl] at hh
                    unfold Record.new at hh
                    rw [if_neg hdl] at hh
                    cases hh
                    simp only [List.length_cons, List.length_drop]
                    omega

/-- alert.rs `FromPrimitive::from_u8` for `AlertLevel` (warning = 1,
fatal = 2); alert levels are modelled by their `u8` discriminant. -/
def alertLevelFromU8 (b : Nat) : Option Nat :=
if b = 1 ∨ b = 2 then some b else none

/-- The `u8` discriminants enumerated by alert.rs `AlertDescription`. -/
def alertDescValues : List Nat :=
[0, 10, 20, 21, 22, 30, 40, 41, 42, 43, 44, 45, 46, 47, 48, 49, 50, 51,
 60, 70, 71, 80, 90, 100, 110]

/-- alert.rs `FromPrimitive::from_u8` for `AlertDescription`, modelled by the
`u8` discriminant. -/
def alertDescFromU8 (b : Nat) : Option Nat :=
if b ∈ alertDescValues then some b else none

/-- The `msg_type` discriminants of the `tls_handshake!` arms in
src/handshake.rs. -/
def handshakeTyValues : List Nat := [0, 1, 2, 11, 12, 13, 14, 16, 20]

/-- src/handshake.rs `Handshake::tls_read` (the body of the `tls_handshake!`
macro): read the `msg_type` byte and the 3-byte length (whose value is unused,
`HandshakeBuffer` has already validated it), dispatch on the type to the
per-variant body reader, then require EOF (a leftover byte is an
`InternalError`).  The per-variant `TlsItem::tls_read` bodies are the
`bodyRead` parameter, exactly as the macro is generic in `$body_ty`. -/
def handshakeTlsRead {Hs : Type}
    (bodyRead : Nat → Bytes → Except TlsErrorKind (Hs × Bytes))
    (input : Bytes) : Except TlsErrorKind Hs :=
match readU8 input with
| .error e => .error e
| .ok (ty, r1) =>
  match readU8 r1 with
  | .error e => .error e
  | .ok (_n1, r2) =>
    match readU8 r2 with
    | .error e => .error e
    | .ok (_n2, r3) =>
      match readU8 r3 with
      | .error e => .error e
      | .ok (_n3, r4) =>
        if ty ∈ handshakeTyValues then
          match bodyRead ty r4 with
          | .error e => .error e
          | .ok (ret, r5) =>
            match readU8 r5 with
            | .error _ => .ok ret
            | .ok _ => .error .InternalError
        else .error .UnexpectedMessage

/-- src/handshake.rs `HandshakeBuffer::get_message`: wait for the 4 header
bytes and the declared body, slice out exactly `4 + length` bytes, parse them
with `Handshake::tls_read`, and keep the remainder as the new buffer. -/
def getMessage {Hs : Type}
    (bodyRead : Nat → Bytes → Except TlsErrorKind (Hs × Bytes))
    (buf : Bytes) : Except TlsErrorKind (Option (Hs × Bytes)) :=
if buf.length < 4 then .ok none
else
  let n1 := buf.getD 1 0
  let n2 := buf.getD 2 0
  let n3 := buf.getD 3 0
  let wantedLen := ((n1 <<< 16) ||| (n2 <<< 8) ||| n3) + 4
  if buf.length < wantedLen then .ok none
  else
    let message := buf.take wantedLen
    let remaining := buf.drop wantedLen
    match handshakeTlsRead bodyRead message with
    | .error e => .error e
    | .ok m => .ok (some (m, remaining))

/-- src/tls.rs `Message`, the return type of `TlsReader::read_message`.
Alerts are carried as their `(level, description)` discriminants. -/
inductive Message (Hs : Type) where
| handshakeMessage (h : Hs)
| changeCipherSpecMessage
| alertMessage (level desc : Nat)
| applicationDataMessage (data : Bytes)

/-- The `loop` of src/tls.rs `TlsReader::read_message`: read records until a
complete message appears.  Content-type dispatch: ChangeCipherSpec must be
exactly `[1]`; Alert must be at least 2 bytes with known level and
description; Handshake fragments must be non-empty and are appended to the
reassembly buffer; ApplicationData is returned as-is. -/
def readMessageLoop {Hs : Type}
    (bodyRead : Nat → Bytes → Except TlsErrorKind (Hs × Bytes))
    (s : TlsReaderSt) : RRes (Message Hs × TlsReaderSt) :=
match h : readRecord s with
| .err e => .err e
| .panic => .panic
| .ok (record, s1) =>
  match record.contentType with
  | .ChangeCipherSpecTy =>
    if record.fragment.length ≠ 1 ∨ record.fragment.getD 0 0 ≠ 1 then
      .err .UnexpectedMessage
    else .ok (.changeCipherSpecMessage, s1)
  | .AlertTy =>
    if record.fragment.length = 0 then .err .UnexpectedMessage
    else if record.fragment.length < 2 then .err .UnexpectedMessage
    else
      match alertLevelFromU8 (record.fragment.getD 0 0),
            alertDescFromU8 (record.fragment.getD 1 0) with
      | some level, some desc => .ok (.alertMessage level desc, s1)
      | _, _ => .err .UnexpectedMessage
  | .HandshakeTy =>
    if record.fragment.length = 0 then .err .UnexpectedMessage
    else
      let buf1 := s1.hsBuffer ++ record.fragment
      match getMessage bodyRead buf1 with
      | .error e => .err e
      | .ok (some (m, rest)) => .ok (.handshakeMessage m, { s1 with hsBuffer := rest })
      | .ok none => readMessageLoop bodyRead { s1 with hsBuffer := buf1 }
  | .ApplicationDataTy => .ok (.applicationDataMessage record.fragment, s1)
termination_by s.stream.length
decreasing_by
have hlt := readRecord_ok_stream_lt s record s1 h
simpa using hlt

/-- src/tls.rs `TlsReader::read_message`: first drain the reassembly buffer,
then enter the record-reading loop. -/
def readMessage {Hs : Type}
    (bodyRead : Nat → Bytes → Except TlsErrorKind (Hs × Bytes))
    (s : TlsReaderSt) : RRes (Message Hs × TlsReaderSt) :=
match getMessage bodyRead s.hsBuffer with
| .error e => .err e
| .ok (some (m, rest)) => .ok (.handshakeMessage m, { s with hsBuffer := rest })
| .ok none => readMessageLoop bodyRead s

/-- src/tls.rs `TlsReader::read_application_data`: panics before the
handshake (`panic!`), otherwise reads one message; only ApplicationData is
returned, every other message type hits `unimplemented!()` (a panic). -/
def readApplicationData {Hs : Type}
    (bodyRead : Nat → Bytes → Except TlsErrorKind (Hs × Bytes))
    (s : TlsReaderSt) : RRes (Bytes × TlsReaderSt) :=
match s.dec? with
| none => .panic
| some _ =>
  match readMessage bodyRead s with
  | .err e => .err e
  | .panic => .panic
  | .ok (msg, s1) =>
    match msg with
    | .applicationDataMessage data => .ok (data, s1)
    | .alertMessage _ _ => .panic
    | .changeCipherSpecMessage => .panic
    | .handshakeMessage _ => .panic

/-- A successful pass of the read_message loop consumes at least one record
from the stream.  (Needed to terminate the client read loop.) -/
theorem readMessageLoop_ok_stream_lt {Hs : Type}
    (bodyRead : Nat → Bytes → Except TlsErrorKind (Hs × Bytes)) :
    ∀ (s : TlsReaderSt) (m : Message Hs) (s1 : TlsReaderSt),
      readMessageLoop bodyRead s = .ok (m, s1) →
      s1.stream.length < s.stream.length := by
  suffices H : ∀ (n : Nat) (s : TlsReaderSt), s.stream.length ≤ n →
      ∀ (m : Message Hs) (s1 : TlsReaderSt),
        readMessageLoop bodyRead s = .ok (m, s1) →
        s1.stream.length < s.stream.length by
    intro s m s1 h
    exact H s.stream.length s (Nat.le_refl _) m s1 h
  intro n
  induction n with
  | zero =>
    intro s hle m s1 h
    rw [readMessageLoop] at h
    split at h
    · cases h
    · cases h
    · rename_i record s2 heq
      have := readRecord_ok_stream_lt s record s2 heq
      omega
  | succ k ih =>
    intro s hle m s1 h
    rw [readMessageLoop] at h
    split at h
    · cases h
    · cases h
    · rename_i record s2 heq
      have hlt := readRecord_ok_stream_lt s record s2 heq
      split at h
      · split at h
        · cases h
        · cases h
          exact hlt
      · split at h
        · cases h
        · split at h
          · cases h
          · split at h
            · cases h
              exact hlt
            · cases h
      · split at h
        · cases h
        · simp only [] at h
          split at h
          · cases h
          · cases h
            simpa using hlt
          · have hrec := ih { s2 with hsBuffer := s2.hsBuffer ++ record.fragment }
              (by show s2.stream.length ≤ k; omega) m s1 h
            exact Nat.lt_trans (by simpa using hrec) hlt
      · cases h
        exact hlt

/-- A successful `read_application_data` consumes at least one record from
the stream: the application-data message can only come from the record
loop, never from the reassembly buffer. -/
theorem readApplicationData_ok_stream_lt {Hs : Type}
    (bodyRead : Nat → Bytes → Except TlsErrorKind (Hs × Bytes))
    (s : TlsReaderSt) (data : Bytes) (s1 : TlsReaderSt)
    (h : readApplicationData bodyRead s = .ok (data, s1)) :
    s1.stream.length < s.stream.length := by
  unfold readApplicationData at h
  split at h
  · cases h
  · split at h
    · cases h
    · cases h
    · rename_i msg s2 heq
      split at h
      · cases h
        unfold readMessage at heq
        split at heq
        · cases heq
        · cases heq
        · exact readMessageLoop_ok_stream_lt bodyRead s _ s1 heq
      · cases h
      · cases h
      · cases h

/-- The `while pos < len` loop of `Read::read for TlsClient`
(src/client.rs): when the internal buffer is empty, pull one
application-data message; an `Err` from the record layer only breaks the
loop (`Err(_err) => break`); then copy `min(remaining, buffered)` bytes and
continue.  Returns the Rust `Ok(pos)` plus the final reader state and
internal buffer. -/
def clientReadLoop {Hs : Type}
    (bodyRead : Nat → Bytes → Except TlsErrorKind (Hs × Bytes))
    (s : TlsReaderSt) (buf : Bytes) (len pos : Nat) :
    RRes (Nat × TlsReaderSt × Bytes) :=
if hp : pos < len then
  if hb : buf.length = 0 then
    match ha : readApplicationData bodyRead s with
    | .err _ => .ok (pos, s, buf)
    | .panic => .panic
    | .ok (data, s1) =>
      let buf1 := buf ++ data
      let necessary := min (len - pos) buf1.length
      clientReadLoop bodyRead s1 (buf1.drop necessary) len (pos + necessary)
  else
    let necessary := min (len - pos) buf.length
    clientReadLoop bodyRead s (buf.drop necessary) len (pos + necessary)
else .ok (pos, s, buf)
termination_by s.stream.length + (len - pos)
decreasing_by
· have := readApplicationData_ok_stream_lt bodyRead s data s1 ha
  omega
· omega

/-- `Read::read for TlsClient` (src/client.rs): run the loop from
position 0. -/
def clientRead {Hs : Type}
    (bodyRead : Nat → Bytes → Except TlsErrorKind (Hs × Bytes))
    (s : TlsReaderSt) (buf : Bytes) (len : Nat) :
    RRes (Nat × TlsReaderSt × Bytes) :=
clientReadLoop bodyRead s buf len 0

/-- handshake.rs `ProtocolVersion`. -/
structure ProtocolVersion where
  major : Nat
  minor : Nat
deriving DecidableEq, Repr

/-- tls.rs `TLS_VERSION = (3, 3)`. -/
def TLS_VERSION : Nat × Nat := (3, 3)

/-- cipher/mod.rs `CipherSuite`: the single live suite plus the `Unknown`
sentinel unknown peer values decode to. -/
inductive CipherSuite where
| TLS_ECDHE_RSA_WITH_CHACHA20_POLY1305_SHA256
| UnknownCipherSuite
deriving DecidableEq, Repr

/-- handshake.rs `CompressionMethod`. -/
inductive CompressionMethod where
| null
| DEFLATE
deriving DecidableEq, Repr

/-- handshake.rs `Extension`: the two understood extensions; curve and
point-format identifiers are carried as their wire integers. -/
inductive Extension where
| elliptic_curves (lists : List (List Nat))
| ec_point_formats (lists : List (List Nat))
deriving DecidableEq, Repr

/-- handshake.rs `ClientHello`. -/
structure ClientHello where
  client_version : ProtocolVersion
  random : Bytes
  session_id : Bytes
  cipher_suites : List CipherSuite
  compression_methods : List CompressionMethod
  extensions : Option (List Extension)
deriving DecidableEq, Repr

/-- handshake.rs `ServerHello`. -/
structure ServerHello where
  server_version : ProtocolVersion
  random : Bytes
  session_id : Bytes
  cipher_suite : CipherSuite
  compression_method : CompressionMethod
  extensions : Option (List Extension)
deriving DecidableEq, Repr

/-- handshake.rs `CertificateRequest`; certificate types and signature
algorithms are carried as wire integers. -/
structure CertificateRequest where
  certificate_types : List Nat
  supported_signature_algorithms : List (Nat × Nat)
  certificate_authorities : List Bytes
deriving DecidableEq, Repr

/-- handshake.rs `Handshake`: the variants of the `tls_handshake!` macro.
`DummyItem` bodies are empty, `ObscureData` bodies are raw bytes. -/
inductive Handshake where
| hello_request
| client_hello (data : ClientHello)
| server_hello (data : ServerHello)
| certificate (data : List Bytes)
| server_key_exchange (data : Bytes)
| certificate_request (data : CertificateRequest)
| server_hello_done
| client_key_exchange (data : Bytes)
| finished (data : Bytes)
deriving DecidableEq, Repr

/-- The inbound half of `TlsClient::handshake` (src/client.rs lines 86-122)
over the sequence of handshake messages the server sends: `expect!` each of
ServerHello (validated: version, cipher suite, compression), Certificate,
ServerKeyExchange and ServerHelloDone in order; any other message is
`UnexpectedMessage` (the `expect!` macro), an exhausted transport is an I/O
failure.  Returns the collected data and the unconsumed messages. -/
def clientHandshakeReceive (msgs : List Handshake) :
    Except TlsErrorKind (ServerHello × List Bytes × Bytes × List Handshake) :=
match msgs with
| [] => .error .IoFailure
| m :: ms1 =>
  match m with
  | .server_hello sh =>
    if (sh.server_version.major, sh.server_version.minor) ≠ TLS_VERSION then
      .error .IllegalParameter
    else if sh.cipher_suite ≠ CipherSuite.TLS_ECDHE_RSA_WITH_CHACHA20_POLY1305_SHA256 then
      .error .IllegalParameter
    else if sh.compression_method ≠ CompressionMethod.null then
      .error .IllegalParameter
    else
      match ms1 with
      | [] => .error .IoFailure
      | m2 :: ms2 =>
        match m2 with
        | .certificate certs =>
          match ms2 with
          | [] => .error .IoFailure
          | m3 :: ms3 =>
            match m3 with
            | .server_key_exchange skx =>
              match ms3 with
              | [] => .error .IoFailure
              | m4 :: ms4 =>
                match m4 with
                | .server_hello_done => .ok (sh, certs, skx, ms4)
                | _ => .error .UnexpectedMessage
            | _ => .error .UnexpectedMessage
        | _ => .error .UnexpectedMessage
  | _ => .error .UnexpectedMessage

/-- A `Box<Encryptor>` value (cipher/mod.rs): `encrypt(nonce, plain, ad)`. -/
structure Encryptor where
  encrypt : Bytes → Bytes → Bytes → Bytes

/-- The additional data both record-layer directions build: the 8-byte
sequence number, content type, version, and the big-endian bytes of the
16-bit (`as u16`) fragment length. -/
def recordAd (count : Nat) (ct : ContentType) (maj mi fl : Nat) : Bytes :=
u64BeArray count ++
  [ct.toU8, maj, mi, ((fl % 65536) >>> 8) % 256, (fl % 65536) % 256]

/-- The five wire header bytes for an (encrypted) fragment of length `fl`:
content type, version major/minor, big-endian `u16` length. -/
def recordHeader (ct : ContentType) (maj mi fl : Nat) : Bytes :=
[ct.toU8, maj, mi, (fl % 65536) >>> 8, (fl % 65536) % 256]

/-- State of src/tls.rs `TlsWriter`: the bytes written so far (the sink is a
`Vec<u8>`, whose writes always succeed), the optional encryptor and the
record counter. -/
structure TlsWriterSt where
  output : Bytes
  enc? : Option Encryptor
  writeCount : Nat

/-- src/tls.rs `TlsWriter::set_encryptor`: `assert!` that no encryptor is
installed (modelled as panic), install it, reset the counter to 0. -/
def setEncryptor (w : TlsWriterSt) (e : Encryptor) : RRes TlsWriterSt :=
match w.enc? with
| some _ => .panic
| none => .ok { w with enc? := some e, writeCount := 0 }

/-- src/tls.rs `TlsReader::set_decryptor`: `assert!` that no decryptor is
installed (modelled as panic), install it, reset the counter to 0. -/
def setDecryptor (s : TlsReaderSt) (d : Decryptor) : RRes TlsReaderSt :=
match s.dec? with
| some _ => .panic
| none => .ok { s with dec? := some d, readCount := 0 }

/-- src/tls.rs `TlsWriter::write_record`: when an encryptor is installed,
encrypt the fragment with the current sequence number as nonce and the
record AD; panic when the resulting fragment exceeds 2^14 + 2048; emit the
5-byte header and the fragment; increment the counter. -/
def writeRecord (w : TlsWriterSt) (record : Record) : RRes TlsWriterSt :=
let encryptedFragment :=
  match w.enc? with
  | none => record.fragment
  | some e =>
    e.encrypt (u64BeArray w.writeCount) record.fragment
      (recordAd w.writeCount record.contentType record.verMajor record.verMinor
        record.fragment.length)
if encryptedFragment.length > ENC_RECORD_MAX_LEN then .panic
else .ok { w with
  output := w.output ++
    (recordHeader record.contentType record.verMajor record.verMinor
      encryptedFragment.length ++ encryptedFragment),
  writeCount := w.writeCount + 1 }

/-- A sequence of `write_record` calls. -/
def writeRecords (w : TlsWriterSt) : List Record → RRes TlsWriterSt
| [] => .ok w
| r :: rs =>
  match writeRecord w r with
  | .ok w1 => writeRecords w1 rs
  | .err e => .err e
  | .panic => .panic

/-- The wire bytes `write_record` emits for record `r` under encryptor `e`
at sequence number `seq`. -/
def encRecordBytes (e : Encryptor) (seq : Nat) (r : Record) : Bytes :=
let ef := e.encrypt (u64BeArray seq) r.fragment
  (recordAd seq r.contentType r.verMajor r.verMinor r.fragment.length)
recordHeader r.contentType r.verMajor r.verMinor ef.length ++ ef

/-- A sequence of `read_record` calls. -/
def readRecordsN : Nat → TlsReaderSt → RRes (List Record × TlsReaderSt)
| 0, s => .ok ([], s)
| n + 1, s =>
  match readRecord s with
  | .ok (r, s1) =>
    match readRecordsN n s1 with
    | .ok (rs, s2) => .ok (r :: rs, s2)
    | .err e => .err e
    | .panic => .panic
  | .err e => .err e
  | .panic => .panic

/-- crypto/sha2.rs: rotate-right of a `u32` (`(a >> b) | (a << (32 - b))`,
the left shift wrapping at 32 bits). -/
def rot32 (a b : Nat) : Nat :=
(a >>> b) ||| ((a <<< (32 - b)) % 4294967296)

/-- crypto/sha2.rs `INIT_VAL` and the running hash state: eight 32-bit
words. -/
structure Sha256Vals where
  v0 : Nat
  v1 : Nat
  v2 : Nat
  v3 : Nat
  v4 : Nat
  v5 : Nat
  v6 : Nat
  v7 : Nat

/-- crypto/sha2.rs `INIT_VAL`. -/
def sha256Init : Sha256Vals :=
⟨0x6a09e667, 0xbb67ae85, 0x3c6ef372, 0xa54ff53a,
 0x510e527f, 0x9b05688c, 0x1f83d9ab, 0x5be0cd19⟩

/-- crypto/sha2.rs `K`. -/
def sha256K : List Nat :=
[0x428a2f98, 0x71374491, 0xb5c0fbcf, 0xe9b5dba5, 0x3956c25b, 0x59f111f1,
 0x923f82a4, 0xab1c5ed5] ++
[0xd807aa98, 0x12835b01, 0x243185be, 0x550c7dc3, 0x72be5d74, 0x80deb1fe,
 0x9bdc06a7, 0xc19bf174] ++
[0xe49b69c1, 0xefbe4786, 0x0fc19dc6, 0x240ca1cc, 0x2de92c6f, 0x4a7484aa,
 0x5cb0a9dc, 0x76f988da] ++
[0x983e5152, 0xa831c66d, 0xb00327c8, 0xbf597fc7, 0xc6e00bf3, 0xd5a79147,
 0x06ca6351, 0x14292967] ++
[0x27b70a85, 0x2e1b2138, 0x4d2c6dfc, 0x53380d13, 0x650a7354, 0x766a0abb,
 0x81c2c92e, 0x92722c85] ++
[0xa2bfe8a1, 0xa81a664b, 0xc24b8b70, 0xc76c51a3, 0xd192e819, 0xd6990624,
 0xf40e3585, 0x106aa070] ++
[0x19a4c116, 0x1e376c08, 0x2748774c, 0x34b0bcb5, 0x391c0cb3, 0x4ed8aa4a,
 0x5b9cca4f, 0x682e6ff3] ++
[0x748f82ee, 0x78a5636f, 0x84c87814, 0x8cc70208, 0x90befffa, 0xa4506ceb,
 0xbef9a3f7, 0xc67178f2]

/-- crypto/sha2.rs: one entry of the extended message schedule (`w[j]` for
16 ≤ j < 64, where `j` is the current length of the partial schedule). -/
def sha256NextW (w : List Nat) : Nat :=
let j := w.length
let wj15 := w.getD (j - 15) 0
let sig0 := rot32 wj15 7 ^^^ rot32 wj15 18 ^^^ (wj15 >>> 3)
let wj2 := w.getD (j - 2) 0
let sig1 := rot32 wj2 17 ^^^ rot32 wj2 19 ^^^ (wj2 >>> 10)
(sig1 + w.getD (j - 7) 0 + sig0 + w.getD (j - 16) 0) % 4294967296

/-- crypto/sha2.rs: one of the 64 compression rounds (registers a..h are
v0..v7; `!e` of a `u32` is `e ^^^ 0xFFFFFFFF`). -/
def sha256Round (st : Sha256Vals) (kj wj : Nat) : Sha256Vals :=
let ch := (st.v4 &&& st.v5) ^^^ ((st.v4 ^^^ 0xFFFFFFFF) &&& st.v6)
let maj := (st.v0 &&& st.v1) ^^^ (st.v0 &&& st.v2) ^^^ (st.v1 &&& st.v2)
let sig0 := rot32 st.v0 2 ^^^ rot32 st.v0 13 ^^^ rot32 st.v0 22
let sig1 := rot32 st.v4 6 ^^^ rot32 st.v4 11 ^^^ rot32 st.v4 25
let t1 := (st.v7 + sig1 + ch + kj + wj) % 4294967296
let t2 := (sig0 + maj) % 4294967296
⟨(t1 + t2) % 4294967296, st.v0, st.v1, st.v2,
 (st.v3 + t1) % 4294967296, st.v4, st.v5, st.v6⟩

/-- crypto/sha2.rs: compress one 64-byte block into the state: build the
16-word big-endian schedule, extend it to 64 words, run 64 rounds, add
the result into the state (wrapping). -/
def sha256Compress (block : Bytes) (val : Sha256Vals) : Sha256Vals :=
let w16 := (List.range 16).map fun j =>
  ((block.getD (4 * j) 0) <<< 24) ||| ((block.getD (4 * j + 1) 0) <<< 16) |||
  ((block.getD (4 * j + 2) 0) <<< 8) ||| block.getD (4 * j + 3) 0
let w := (List.range 48).foldl (fun wacc _ => wacc ++ [sha256NextW wacc]) w16
let regs := (List.range 64).foldl
  (fun st j => sha256Round st (sha256K.getD j 0) (w.getD j 0)) val
⟨(val.v0 + regs.v0) % 4294967296, (val.v1 + regs.v1) % 4294967296,
 (val.v2 + regs.v2) % 4294967296, (val.v3 + regs.v3) % 4294967296,
 (val.v4 + regs.v4) % 4294967296, (val.v5 + regs.v5) % 4294967296,
 (val.v6 + regs.v6) % 4294967296, (val.v7 + regs.v7) % 4294967296⟩

/-- crypto/sha2.rs: iterate the compression over the 64-byte blocks of the
padded message. -/
def sha256Blocks (val : Sha256Vals) (msg : Bytes) : Sha256Vals :=
if h : msg = [] then val
else sha256Blocks (sha256Compress (msg.take 64) val) (msg.drop 64)
termination_by msg.length
decreasing_by
have hl : 0 < msg.length := List.length_pos.mpr h
simp only [List.length_drop]
omega

/-- crypto/sha2.rs `sha256`: pad (0x80, zeros to 56 mod 64, 8-byte
big-endian bit length — the zero count `(64 - 8 - 1 - len) & 63` is usize
wrapping subtraction, i.e. `(55 - len) mod 64`), compress all blocks, and
serialize the state big-endian. -/
def sha256 (msg : Bytes) : Bytes :=
let len := msg.length
let padded := msg ++ [0x80] ++ List.replicate ((119 - len % 64) % 64) 0 ++
  u64BeArray (len * 8)
let val := sha256Blocks sha256Init padded
[(val.v0 >>> 24) % 256, (val.v0 >>> 16) % 256, (val.v0 >>> 8) % 256, val.v0 % 256,
 (val.v1 >>> 24) % 256, (val.v1 >>> 16) % 256, (val.v1 >>> 8) % 256, val.v1 % 256,
 (val.v2 >>> 24) % 256, (val.v2 >>> 16) % 256, (val.v2 >>> 8) % 256, val.v2 % 256,
 (val.v3 >>> 24) % 256, (val.v3 >>> 16) % 256, (val.v3 >>> 8) % 256, val.v3 % 256,
 (val.v4 >>> 24) % 256, (val.v4 >>> 16) % 256, (val.v4 >>> 8) % 256, val.v4 % 256,
 (val.v5 >>> 24) % 256, (val.v5 >>> 16) % 256, (val.v5 >>> 8) % 256, val.v5 % 256,
 (val.v6 >>> 24) % 256, (val.v6 >>> 16) % 256, (val.v6 >>> 8) % 256, val.v6 % 256,
 (val.v7 >>> 24) % 256, (val.v7 >>> 16) % 256, (val.v7 >>> 8) % 256, val.v7 % 256]

/-- The hash output is always 32 bytes. -/
theorem sha256_length (msg : Bytes) : (sha256 msg).length = 32 := by
simp [sha256]

/-- cipher/prf.rs `hmac_sha256`.  The source hits `unimplemented!()` for
keys longer than 64 bytes; this model is total (`getD` pads with 0, which
agrees with the source for all keys of at most 64 bytes, the only ones the
repository ever uses). -/
def hmac_sha256 (key msg : Bytes) : Bytes :=
let i_msg := (List.range 64).map fun i => 0x36 ^^^ key.getD i 0
let o_msg := (List.range 64).map fun i => 0x5c ^^^ key.getD i 0
let h_i := sha256 (i_msg ++ msg)
sha256 (o_msg ++ h_i)

/-- The HMAC output is always 32 bytes. -/
theorem hmac_sha256_length (key msg : Bytes) : (hmac_sha256 key msg).length = 32 := by
simp [hmac_sha256, sha256_length]

/-- cipher/prf.rs `Prf`: secret, seed, the current `A(i)` value, and the
internal buffer of undelivered bytes. -/
structure Prf where
  secret : Bytes
  seed : Bytes
  a : Bytes
  buf : Bytes

/-- cipher/prf.rs `Prf::new`: `a` starts as `A(1) = HMAC(secret, seed)`. -/
def Prf.new (secret seed : Bytes) : Prf :=
⟨secret, seed, hmac_sha256 secret seed, []⟩

/-- cipher/prf.rs `Prf::next_block`: returns
`HMAC(secret, A(i) ∥ seed)` and advances `a` to `A(i+1)`. -/
def Prf.nextBlock (p : Prf) : Bytes × Prf :=
(hmac_sha256 p.secret (p.a ++ p.seed), { p with a := hmac_sha256 p.secret p.a })

/-- The `while ret.len() < size` loop of cipher/prf.rs `Prf::get_bytes`:
append whole 32-byte blocks while more than 32 bytes are missing, then a
final partial block whose remainder becomes the new buffer. -/
def Prf.fill (p : Prf) (ret : Bytes) (size : Nat) : Bytes × Prf :=
if h : ret.length < size then
  let np := p.nextBlock
  let sliceLen := size - ret.length
  if 32 < sliceLen then
    Prf.fill np.2 (ret ++ np.1) size
  else
    (ret ++ np.1.take sliceLen, { np.2 with buf := np.1.drop sliceLen })
else (ret, p)
termination_by size - ret.length
decreasing_by
have hn : (p.nextBlock.1).length = 32 := hmac_sha256_length p.secret (p.a ++ p.seed)
simp only [List.length_append]
omega

/-- cipher/prf.rs `Prf::get_bytes`: serve from the internal buffer first
(consuming all of it when it is no larger than the request, else its first
`size` bytes), then fill from fresh blocks. -/
def Prf.getBytes (p : Prf) (size : Nat) : Bytes × Prf :=
if p.buf.length > 0 then
  if p.buf.length ≤ size then Prf.fill { p with buf := [] } p.buf size
  else Prf.fill { p with buf := p.buf.drop size } (p.buf.take size) size
else Prf.fill p [] size

/-- `n` successive `get_bytes(1)` calls, concatenated (the loop of the
source's `test_get_bytes`). -/
def Prf.getBytesTimes (p : Prf) : Nat → Bytes × Prf
| 0 => ([], p)
| n + 1 =>
  let bp := p.getBytes 1
  let rp := bp.2.getBytesTimes n
  (bp.1 ++ rp.1, rp.2)

/-- The TLS 1.2 PRF chain `A(i)`: `prfA secret seed 0 = HMAC(secret, seed)`
(the source's `A(1)`), `prfA (i+1) = HMAC(secret, prfA i)`. -/
def prfA (secret seed : Bytes) : Nat → Bytes
| 0 => hmac_sha256 secret seed
| i + 1 => hmac_sha256 secret (prfA secret seed i)

/-- The i-th 32-byte output block `HMAC(secret, A(i) ∥ seed)`. -/
def prfBlock (secret seed : Bytes) (i : Nat) : Bytes :=
hmac_sha256 secret (prfA secret seed i ++ seed)

/-- Byte `k` of the infinite PRF output stream. -/
def prfByteAt (secret seed : Bytes) (k : Nat) : Nat :=
(prfBlock secret seed (k / 32)).getD (k % 32) 0

/-- Bytes `k .. k+n-1` of the PRF output stream. -/
def prfSlice (secret seed : Bytes) (k n : Nat) : Bytes :=
(List.range n).map fun t => prfByteAt secret seed (k + t)

/-- The PRF state reached after delivering exactly `k` stream bytes: for
some block count `i`, `a` holds `A(i+1)`, the buffer holds the undelivered
tail of block `i-1` (fewer than 32 bytes), and `k` lies within block
`i-1`'s extent. -/
def PrfGoodAt (secret seed : Bytes) (p : Prf) (k : Nat) : Prop :=
p.secret = secret ∧ p.seed = seed ∧
∃ i, p.a = prfA secret seed i ∧
  p.buf = prfSlice secret seed k (32 * i - k) ∧
  k ≤ 32 * i ∧ 32 * i - k < 32

/-- C6. For every inbound record whose 5-byte header declares a fragment
length greater than 2^14 + 2048, read_record fails with RecordOverflow,
independently of every byte after the header (so before reading any fragment
bytes from the transport). -/
theorem readRecord_overlong_header (ty maj mi b3 b4 : Nat) (rest : Bytes)
    (dec? : Option Decryptor) (count : Nat) (buf : Bytes)
    (hty : ContentType.fromU8 ty ≠ none)
    (hlen : b3 * 256 + b4 > ENC_RECORD_MAX_LEN) :
    readRecord ⟨ty :: maj :: mi :: b3 :: b4 :: rest, dec?, count, buf⟩ =
      .err .RecordOverflow := by
  unfold readRecord
  simp only [readU8, readBeU16]
  cases h : ContentType.fromU8 ty with
  | none => exact absurd h hty
  | some ct => simp [hlen]

/-- Witness for C6: the concrete header of the spec's scenario, declaring
length 2^14 + 2049 = 0x4801, fails with RecordOverflow. -/
theorem readRecord_overlong_header_witness :
    ContentType.fromU8 23 ≠ none ∧ 0x48 * 256 + 0x01 > ENC_RECORD_MAX_LEN ∧
      readRecord ⟨[23, 3, 3, 0x48, 0x01], none, 0, []⟩ = .err .RecordOverflow :=
  ⟨by decide, by decide,
    readRecord_overlong_header 23 3 3 0x48 0x01 [] none 0 [] (by decide) (by decide)⟩

/-- C7. In read_message (with nothing pending in the reassembly buffer), a
record of type ChangeCipherSpec, Alert or Handshake with a zero-byte
fragment fails with UnexpectedMessage, and an Alert record with a one-byte
fragment also fails with UnexpectedMessage. -/
theorem readMessage_rejects_empty_and_short_alert {Hs : Type}
    (bodyRead : Nat → Bytes → Except TlsErrorKind (Hs × Bytes))
    (s : TlsReaderSt) (rec : Record) (s1 : TlsReaderSt)
    (hbuf : getMessage bodyRead s.hsBuffer = .ok none)
    (hrec : readRecord s = .ok (rec, s1))
    (hcase : (rec.contentType ≠ ContentType.ApplicationDataTy ∧ rec.fragment = []) ∨
             (rec.contentType = ContentType.AlertTy ∧ rec.fragment.length = 1)) :
    readMessage bodyRead s = .err .UnexpectedMessage := by
  simp only [readMessage, hbuf]
  rw [readMessageLoop]
  split
  · rename_i e heq
    rw [hrec] at heq
    cases heq
  · rename_i heq
    rw [hrec] at heq
    cases heq
  · rename_i record s2 heq
    rw [hrec] at heq
    cases heq
    obtain ⟨rct, rmaj, rmin, rfrag⟩ := rec
    rcases hcase with ⟨hct, hfr⟩ | ⟨hct, hlen⟩
    · cases rct with
      | ChangeCipherSpecTy => subst hfr; simp
      | AlertTy => subst hfr; simp
      | HandshakeTy => subst hfr; simp
      | ApplicationDataTy => exact absurd rfl hct
    · cases hct
      cases hfr : rfrag with
      | nil => rw [hfr] at hlen; simp at hlen
      | cons a t =>
        cases t with
        | nil => simp
        | cons b t2 => rw [hfr] at hlen; simp at hlen

/-- Witness for C7: a plaintext ChangeCipherSpec record with declared length
zero makes read_message fail with UnexpectedMessage. -/
theorem readMessage_rejects_empty_and_short_alert_witness :
    getMessage (fun _ _ => .error .DecodeError : Nat → Bytes → Except TlsErrorKind (Unit × Bytes)) [] = .ok none ∧
      readRecord ⟨[20, 3, 3, 0, 0], none, 0, []⟩ =
        .ok (⟨.ChangeCipherSpecTy, 3, 3, []⟩, ⟨[], none, 1, []⟩) ∧
      readMessage (fun _ _ => .error .DecodeError : Nat → Bytes → Except TlsErrorKind (Unit × Bytes))
        ⟨[20, 3, 3, 0, 0], none, 0, []⟩ = .err .UnexpectedMessage :=
  ⟨rfl, rfl,
    readMessage_rejects_empty_and_short_alert (fun _ _ => .error .DecodeError)
      ⟨[20, 3, 3, 0, 0], none, 0, []⟩ ⟨.ChangeCipherSpecTy, 3, 3, []⟩ ⟨[], none, 1, []⟩
      rfl rfl (Or.inl ⟨by decide, rfl⟩)⟩

/-- Helper: the general panic fact behind C3, shared by its counterexample
and its amended theorem. -/
theorem readRecord_decrypted_overlong_aux (s : TlsReaderSt) (d : Decryptor)
    (ty maj mi b3 b4 : Nat) (rest : Bytes) (ct : ContentType) (data : Bytes)
    (hstream : s.stream = ty :: maj :: mi :: b3 :: b4 :: rest)
    (hdec : s.dec? = some d)
    (hct : ContentType.fromU8 ty = some ct)
    (hmax : b3 * 256 + b4 ≤ ENC_RECORD_MAX_LEN)
    (hav : rest.length ≥ b3 * 256 + b4)
    (hmac : (List.take (b3 * 256 + b4) rest).length ≥ d.macLen)
    (hdc : d.decrypt (u64BeArray s.readCount) (List.take (b3 * 256 + b4) rest)
      (u64BeArray s.readCount ++
        [ct.toU8, maj, mi,
         ((((List.take (b3 * 256 + b4) rest).length - d.macLen) % 65536) >>> 8) % 256,
         (((List.take (b3 * 256 + b4) rest).length - d.macLen) % 65536) % 256]) = .ok data)
    (hlong : data.length > RECORD_MAX_LEN) :
    readRecord s = .panic := by
  unfold readRecord
  rw [hstream]
  simp only [readU8, readBeU16, hct]
  rw [if_neg (by omega)]
  simp only [readExactBytes]
  rw [if_neg (by omega)]
  simp only [hdec]
  rw [if_neg (by omega)]
  rw [hdc]
  simp only []
  rw [if_pos hlong]

/-- Counterexample for C3: with a decryptor whose decryption succeeds and
returns a 16385-byte plaintext (one byte over 2^14), read_record panics
(`panic!("decrypted record too long")`); it does not fail with the error
RecordOverflow as the claim states. -/
theorem readRecord_long_plaintext_panics_cex :
    readRecord ⟨[23, 3, 3, 0, 0],
        some ⟨fun _ _ _ => .ok (List.replicate 16385 0), 0⟩, 0, []⟩ = .panic ∧
      readRecord ⟨[23, 3, 3, 0, 0],
        some ⟨fun _ _ _ => .ok (List.replicate 16385 0), 0⟩, 0, []⟩ ≠
        .err .RecordOverflow := by
  have h1 : readRecord ⟨[23, 3, 3, 0, 0],
      some ⟨fun _ _ _ => .ok (List.replicate 16385 0), 0⟩, 0, []⟩ = .panic :=
    readRecord_decrypted_overlong_aux
      ⟨[23, 3, 3, 0, 0], some ⟨fun _ _ _ => .ok (List.replicate 16385 0), 0⟩, 0, []⟩
      ⟨fun _ _ _ => .ok (List.replicate 16385 0), 0⟩ 23 3 3 0 0 [] .ApplicationDataTy
      (List.replicate 16385 0) rfl rfl (by decide) (by decide) (by decide) (by decide) rfl
      (by simp only [List.length_replicate, RECORD_MAX_LEN]; decide)
  exact ⟨h1, by rw [h1]; exact fun hcon => by cases hcon⟩

/-- C3 (amended). For every inbound record read while a cipher is installed,
if the AEAD decryption succeeds but yields a plaintext longer than 2^14
bytes, read_record panics (instead of failing with RecordOverflow). -/
theorem readRecord_long_plaintext_panics (s : TlsReaderSt) (d : Decryptor)
    (ty maj mi b3 b4 : Nat) (rest : Bytes) (ct : ContentType) (data : Bytes)
    (hstream : s.stream = ty :: maj :: mi :: b3 :: b4 :: rest)
    (hdec : s.dec? = some d)
    (hct : ContentType.fromU8 ty = some ct)
    (hmax : b3 * 256 + b4 ≤ ENC_RECORD_MAX_LEN)
    (hav : rest.length ≥ b3 * 256 + b4)
    (hmac : (List.take (b3 * 256 + b4) rest).length ≥ d.macLen)
    (hdc : d.decrypt (u64BeArray s.readCount) (List.take (b3 * 256 + b4) rest)
      (u64BeArray s.readCount ++
        [ct.toU8, maj, mi,
         ((((List.take (b3 * 256 + b4) rest).length - d.macLen) % 65536) >>> 8) % 256,
         (((List.take (b3 * 256 + b4) rest).length - d.macLen) % 65536) % 256]) = .ok data)
    (hlong : data.length > RECORD_MAX_LEN) :
    readRecord s = .panic :=
  readRecord_decrypted_overlong_aux s d ty maj mi b3 b4 rest ct data hstream hdec hct
    hmax hav hmac hdc hlong

/-- Witness for C3 (amended): a concrete state matching all hypotheses. -/
theorem readRecord_long_plaintext_panics_witness :
    readRecord ⟨[23, 3, 3, 0, 0], some ⟨fun _ _ _ => .ok (List.replicate 16385 0), 0⟩, 0, []⟩ =
      .panic :=
  readRecord_long_plaintext_panics
    ⟨[23, 3, 3, 0, 0], some ⟨fun _ _ _ => .ok (List.replicate 16385 0), 0⟩, 0, []⟩
    ⟨fun _ _ _ => .ok (List.replicate 16385 0), 0⟩ 23 3 3 0 0 [] .ApplicationDataTy
    (List.replicate 16385 0) rfl rfl rfl (by decide) (by decide) (by decide) rfl
    (by simp only [List.length_replicate, RECORD_MAX_LEN]; decide)

/-- C10. In `Handshake::tls_read` on a sliced-out message (1 type byte,
3 length bytes, body), if the per-variant body reader leaves bytes
unconsumed the parse fails with InternalError, and a successful parse means
the body reader consumed every remaining byte of the slice. -/
theorem handshakeTlsRead_consumes_all {Hs : Type}
    (bodyRead : Nat → Bytes → Except TlsErrorKind (Hs × Bytes))
    (ty n1 n2 n3 : Nat) (rest : Bytes) (body : Hs) (rem : Bytes)
    (hty : ty ∈ handshakeTyValues)
    (hbody : bodyRead ty rest = .ok (body, rem)) :
    (rem ≠ [] → handshakeTlsRead bodyRead (ty :: n1 :: n2 :: n3 :: rest) =
      .error .InternalError) ∧
    (rem = [] → handshakeTlsRead bodyRead (ty :: n1 :: n2 :: n3 :: rest) = .ok body) := by
  unfold handshakeTlsRead
  simp only [readU8]
  rw [if_pos hty, hbody]
  constructor
  · intro hne
    cases rem with
    | nil => exact absurd rfl hne
    | cons a t => simp [readU8]
  · intro he
    subst he
    simp [readU8]

/-- Witness for C10: a body reader that leaves one byte unconsumed makes the
parse fail with InternalError. -/
theorem handshakeTlsRead_consumes_all_witness :
    (1 ∈ handshakeTyValues) ∧
      ((fun _ l => .ok ((), l) : Nat → Bytes → Except TlsErrorKind (Unit × Bytes)) 1 [5] =
        .ok ((), [5])) ∧
      handshakeTlsRead (fun _ l => .ok ((), l)) [1, 0, 0, 1, 5] = .error .InternalError :=
  ⟨by decide, rfl,
    (handshakeTlsRead_consumes_all (fun _ l => .ok ((), l)) 1 0 0 1 [5] () [5]
      (by decide) rfl).1 (by simp)⟩

/-- Helper: a successful `write_record` under an installed encryptor appends
exactly the header-plus-encrypted-fragment bytes for the current sequence
number and bumps the counter. -/
theorem writeRecord_ok_inv (w : TlsWriterSt) (r : Record) (w1 : TlsWriterSt)
    (e : Encryptor) (hw : w.enc? = some e) (h : writeRecord w r = .ok w1) :
    w1 = { w with output := w.output ++ encRecordBytes e w.writeCount r,
                  writeCount := w.writeCount + 1 } := by
  unfold writeRecord at h
  rw [hw] at h
  simp only [] at h
  split at h
  · cases h
  · cases h
    rw [hw]
    rfl

/-- Helper: a successful sequence of `write_record` calls under an installed
encryptor appends the records encrypted with consecutive sequence numbers
starting at the current counter. -/
theorem writeRecords_inv (e : Encryptor) (recs : List Record) :
    ∀ (w wN : TlsWriterSt), w.enc? = some e → writeRecords w recs = .ok wN →
      wN.enc? = some e ∧ wN.writeCount = w.writeCount + recs.length ∧
      wN.output = w.output ++
        (((List.enumFrom w.writeCount recs).map
          fun p => encRecordBytes e p.1 p.2).flatten) := by
  induction recs with
  | nil =>
    intro w wN hw h
    unfold writeRecords at h
    cases h
    simpa using hw
  | cons r rs ih =>
    intro w wN hw h
    unfold writeRecords at h
    cases hwr : writeRecord w r with
    | ok w1 =>
      simp only [hwr] at h
      have hinv := writeRecord_ok_inv w r w1 e hw hwr
      subst hinv
      obtain ⟨ha, hb, hc⟩ := ih _ wN (by simpa using hw) h
      refine ⟨ha, ?_, ?_⟩
      · simp only [List.length_cons] at hb ⊢
        omega
      · rw [hc]
        simp [List.enumFrom, List.append_assoc]
    | err e2 => simp only [hwr] at h; cases h
    | panic => simp only [hwr] at h; cases h

/-- Helper: a successful `read_record` bumps the read counter by one, keeps
the decryptor and the reassembly buffer, and — when a decryptor is
installed — the returned fragment is a successful decryption under the
pre-call sequence number with the record AD. -/
theorem readRecord_ok_inv (s : TlsReaderSt) (r : Record) (s1 : TlsReaderSt)
    (hh : readRecord s = .ok (r, s1)) :
    s1.readCount = s.readCount + 1 ∧ s1.dec? = s.dec? ∧ s1.hsBuffer = s.hsBuffer ∧
    (∀ d, s.dec? = some d → ∃ frag, d.macLen ≤ frag.length ∧
      d.decrypt (u64BeArray s.readCount) frag
        (recordAd s.readCount r.contentType r.verMajor r.verMinor
          (frag.length - d.macLen)) = .ok r.fragment) := by
  unfold readRecord at hh
  cases hst : s.stream with
  | nil => rw [hst] at hh; simp only [readU8] at hh; cases hh
  | cons ty r1 =>
    rw [hst] at hh
    simp only [readU8] at hh
    cases hct : ContentType.fromU8 ty with
    | none => simp only [hct] at hh; cases hh
    | some ct =>
      simp only [hct] at hh
      cases r1 with
      | nil => simp only [readU8] at hh; cases hh
      | cons maj r2 =>
        simp only [readU8] at hh
        cases r2 with
        | nil => simp only [readU8] at hh; cases hh
        | cons mi r3 =>
          simp only [readU8] at hh
          cases r3 with
          | nil => simp only [readBeU16] at hh; cases hh
          | cons b3 r3a =>
            cases r3a with
            | nil => simp only [readBeU16] at hh; cases hh
            | cons b4 r4 =>
              simp only [readBeU16] at hh
              by_cases hmax : b3 * 256 + b4 > ENC_RECORD_MAX_LEN
              · rw [if_pos hmax] at hh; cases hh
              rw [if_neg hmax] at hh
              simp only [readExactBytes] at hh
              by_cases hav : r4.length < b3 * 256 + b4
              · rw [if_pos hav] at hh; cases hh
              rw [if_neg hav] at hh
              cases hdec : s.dec? with
              | none =>
                simp only [hdec] at hh
                by_cases hfl : (List.take (b3 * 256 + b4) r4).length > RECORD_MAX_LEN
                · rw [if_pos hfl] at hh; cases hh
                rw [if_neg hfl] at hh
                unfold Record.new at hh
                rw [if_neg hfl] at hh
                cases hh
                refine ⟨rfl, rfl, rfl, ?_⟩
                intro d hd
                cases hd
              | some d =>
                simp only [hdec] at hh
                by_cases hshort : (List.take (b3 * 256 + b4) r4).length < d.macLen
                · rw [if_pos hshort] at hh; cases hh
                rw [if_neg hshort] at hh
                split at hh
                · cases hh
                · rename_i data heqd
                  by_cases hdl : data.length > RECORD_MAX_LEN
                  · rw [if_pos hdl] at hh; cases hh
                  · rw [if_neg hdl] at hh
                    unfold Record.new at hh
                    rw [if_neg hdl] at hh
                    cases hh
                    refine ⟨rfl, rfl, rfl, ?_⟩
                    intro d2 hd2
                    cases hd2
                    exact ⟨List.take (b3 * 256 + b4) r4, by omega, heqd⟩

/-- Helper: N successful `read_record` calls decrypt with consecutive
sequence numbers starting at the current counter. -/
theorem readRecordsN_inv (d : Decryptor) (N : Nat) :
    ∀ (s sN : TlsReaderSt) (rs : List Record), s.dec? = some d →
      readRecordsN N s = .ok (rs, sN) →
      sN.readCount = s.readCount + N ∧ rs.length = N ∧
      ∀ i (hi : i < rs.length), ∃ frag, d.macLen ≤ frag.length ∧
        d.decrypt (u64BeArray (s.readCount + i)) frag
          (recordAd (s.readCount + i) (rs.get ⟨i, hi⟩).contentType
            (rs.get ⟨i, hi⟩).verMajor (rs.get ⟨i, hi⟩).verMinor
            (frag.length - d.macLen)) = .ok ((rs.get ⟨i, hi⟩).fragment) := by
  induction N with
  | zero =>
    intro s sN rs hs h
    unfold readRecordsN at h
    cases h
    exact ⟨rfl, rfl, fun i hi => absurd hi (Nat.not_lt_zero i)⟩
  | succ n ih =>
    intro s sN rs hs h
    unfold readRecordsN at h
    cases hr : readRecord s with
    | ok pr =>
      obtain ⟨r, s1⟩ := pr
      simp only [hr] at h
      cases hrn : readRecordsN n s1 with
      | ok pr2 =>
        obtain ⟨rs1, s2⟩ := pr2
        simp only [hrn] at h
        cases h
        obtain ⟨hc1, hd1, _, hex⟩ := readRecord_ok_inv s r s1 hr
        have hs1 : s1.dec? = some d := by rw [hd1, hs]
        obtain ⟨hcN, hlen, hall⟩ := ih s1 sN rs1 hs1 hrn
        refine ⟨by omega, by simp [hlen], ?_⟩
        intro i hi
        cases i with
        | zero =>
          obtain ⟨frag, hfl, hdc⟩ := hex d hs
          exact ⟨frag, hfl, by simpa using hdc⟩
        | succ j =>
          have hj : j < rs1.length := by simpa using hi
          obtain ⟨frag, hfl, hdc⟩ := hall j hj
          refine ⟨frag, hfl, ?_⟩
          have he : s.readCount + (j + 1) = s1.readCount + j := by omega
          rw [he]
          simpa using hdc
      | err e2 => simp only [hrn] at h; cases h
      | panic => simp only [hrn] at h; cases h
    | err e2 => simp only [hr] at h; cases h
    | panic => simp only [hr] at h; cases h

/-- C5. For each direction independently: installing the cipher is possible
only once (a second install panics) and resets that direction's counter to
0; from an installed state with counter 0, N successful record writes use
AEAD sequence numbers exactly 0 through N-1 in increasing order (the wire
output is the concatenation of the records encrypted at sequence numbers
0, 1, …), and N successful record reads decrypt with sequence numbers
exactly 0 through N-1 in increasing order. -/
theorem record_seq_numbers :
    (∀ (w : TlsWriterSt) (e : Encryptor), w.enc? = none →
      setEncryptor w e = .ok { w with enc? := some e, writeCount := 0 }) ∧
    (∀ (w : TlsWriterSt) (e e0 : Encryptor), w.enc? = some e0 →
      setEncryptor w e = .panic) ∧
    (∀ (s : TlsReaderSt) (d : Decryptor), s.dec? = none →
      setDecryptor s d = .ok { s with dec? := some d, readCount := 0 }) ∧
    (∀ (s : TlsReaderSt) (d d0 : Decryptor), s.dec? = some d0 →
      setDecryptor s d = .panic) ∧
    (∀ (e : Encryptor) (w wN : TlsWriterSt) (recs : List Record),
      w.enc? = some e → w.writeCount = 0 → writeRecords w recs = .ok wN →
      wN.writeCount = recs.length ∧
      wN.output = w.output ++
        (((List.enumFrom 0 recs).map fun p => encRecordBytes e p.1 p.2).flatten)) ∧
    (∀ (d : Decryptor) (s sN : TlsReaderSt) (N : Nat) (rs : List Record),
      s.dec? = some d → s.readCount = 0 → readRecordsN N s = .ok (rs, sN) →
      sN.readCount = N ∧ rs.length = N ∧
      ∀ i (hi : i < rs.length), ∃ frag, d.macLen ≤ frag.length ∧
        d.decrypt (u64BeArray i) frag
          (recordAd i (rs.get ⟨i, hi⟩).contentType (rs.get ⟨i, hi⟩).verMajor
            (rs.get ⟨i, hi⟩).verMinor (frag.length - d.macLen)) =
          .ok ((rs.get ⟨i, hi⟩).fragment)) := by
  refine ⟨?_, ?_, ?_, ?_, ?_, ?_⟩
  · intro w e hw
    unfold setEncryptor
    rw [hw]
  · intro w e e0 hw
    unfold setEncryptor
    rw [hw]
  · intro s d hs
    unfold setDecryptor
    rw [hs]
  · intro s d d0 hs
    unfold setDecryptor
    rw [hs]
  · intro e w wN recs hw h0 h
    obtain ⟨_, hcount, hout⟩ := writeRecords_inv e recs w wN hw h
    rw [h0] at hcount hout
    exact ⟨by omega, hout⟩
  · intro d s sN N rs hs h0 h
    obtain ⟨hcount, hlen, hall⟩ := readRecordsN_inv d N s sN rs hs h
    rw [h0] at hcount hall
    refine ⟨by omega, hlen, ?_⟩
    simpa using hall

/-- Witness for C5: a second install panics, and one successful read under
an installed identity decryptor consumes sequence number 0 and leaves the
counter at 1. -/
theorem record_seq_numbers_witness :
    ((⟨[], some ⟨fun _ _ _ => []⟩, 0⟩ : TlsWriterSt).enc? = some ⟨fun _ _ _ => []⟩) ∧
      setEncryptor ⟨[], some ⟨fun _ _ _ => []⟩, 0⟩ ⟨fun _ _ _ => []⟩ = .panic ∧
      ((⟨[23, 3, 3, 0, 1, 9], some ⟨fun _ dat _ => .ok dat, 0⟩, 0, []⟩ :
          TlsReaderSt).dec? = some ⟨fun _ dat _ => .ok dat, 0⟩) ∧
      readRecordsN 1 ⟨[23, 3, 3, 0, 1, 9], some ⟨fun _ dat _ => .ok dat, 0⟩, 0, []⟩ =
        .ok ([⟨.ApplicationDataTy, 3, 3, [9]⟩],
             ⟨[], some ⟨fun _ dat _ => .ok dat, 0⟩, 1, []⟩) ∧
      ((⟨[], some ⟨fun _ dat _ => .ok dat, 0⟩, 1, []⟩ : TlsReaderSt).readCount = 1 ∧
        ([(⟨.ApplicationDataTy, 3, 3, [9]⟩ : Record)]).length = 1 ∧
        ∀ i (hi : i < ([(⟨.ApplicationDataTy, 3, 3, [9]⟩ : Record)]).length),
          ∃ frag, (⟨fun _ dat _ => .ok dat, 0⟩ : Decryptor).macLen ≤ frag.length ∧
            (⟨fun _ dat _ => .ok dat, 0⟩ : Decryptor).decrypt (u64BeArray i) frag
              (recordAd i
                (([(⟨.ApplicationDataTy, 3, 3, [9]⟩ : Record)]).get ⟨i, hi⟩).contentType
                (([(⟨.ApplicationDataTy, 3, 3, [9]⟩ : Record)]).get ⟨i, hi⟩).verMajor
                (([(⟨.ApplicationDataTy, 3, 3, [9]⟩ : Record)]).get ⟨i, hi⟩).verMinor
                (frag.length - (⟨fun _ dat _ => .ok dat, 0⟩ : Decryptor).macLen)) =
              .ok ((([(⟨.ApplicationDataTy, 3, 3, [9]⟩ : Record)]).get ⟨i, hi⟩).fragment)) :=
  ⟨rfl, record_seq_numbers.2.1 _ _ _ rfl, rfl, rfl,
    record_seq_numbers.2.2.2.2.2 ⟨fun _ dat _ => .ok dat, 0⟩
      ⟨[23, 3, 3, 0, 1, 9], some ⟨fun _ dat _ => .ok dat, 0⟩, 0, []⟩
      ⟨[], some ⟨fun _ dat _ => .ok dat, 0⟩, 1, []⟩ 1
      [⟨.ApplicationDataTy, 3, 3, [9]⟩] rfl rfl rfl⟩

/-- Helper: the client read loop never produces `Err`, and a returned count
never exceeds the requested length (strong induction on stream length plus
remaining room). -/
theorem clientReadLoop_ok_bound {Hs : Type}
    (bodyRead : Nat → Bytes → Except TlsErrorKind (Hs × Bytes)) :
    ∀ (n : Nat) (s : TlsReaderSt) (buf : Bytes) (len pos : Nat)
      (res : RRes (Nat × TlsReaderSt × Bytes)),
      s.stream.length + (len - pos) ≤ n → pos ≤ len →
      clientReadLoop bodyRead s buf len pos = res →
      (∀ e, res ≠ .err e) ∧
      (∀ m s1 b1, res = .ok (m, s1, b1) → m ≤ len) := by
  intro n
  induction n with
  | zero =>
    intro s buf len pos res hm hp hres
    have hnp : ¬ pos < len := by omega
    rw [clientReadLoop] at hres
    rw [dif_neg hnp] at hres
    cases hres
    exact ⟨(fun e h => by cases h), fun m s1 b1 h => by (cases h; exact hp)⟩
  | succ k ih =>
    intro s buf len pos res hm hp hres
    rw [clientReadLoop] at hres
    by_cases hplt : pos < len
    · rw [dif_pos hplt] at hres
      by_cases hb : buf.length = 0
      · rw [dif_pos hb] at hres
        split at hres
        · cases hres
          exact ⟨(fun e h => by cases h), fun m s1 b1 h => by (cases h; exact hp)⟩
        · cases hres
          exact ⟨(fun e h => by cases h), fun m s1 b1 h => by (cases h)⟩
        · rename_i data s1 ha
          simp only [] at hres
          have hstream := readApplicationData_ok_stream_lt bodyRead s data s1 ha
          exact ih s1 _ len (pos + min (len - pos) (buf ++ data).length) res
            (by omega) (by omega) hres
      · rw [dif_neg hb] at hres
        simp only [] at hres
        exact ih s _ len (pos + min (len - pos) buf.length) res
          (by omega) (by omega) hres
    · rw [dif_neg hplt] at hres
      cases hres
      exact ⟨(fun e h => by cases h), fun m s1 b1 h => by (cases h; exact hp)⟩

/-- C1 (amended). `read` reads up to `buf.len()` bytes of decrypted
application data and always returns `Ok` (when it returns at all): a
protocol or I/O failure during the read only breaks the loop, so the call
returns `Ok(n)` with the bytes copied so far (possibly 0) instead of an
error; the returned count never exceeds the buffer length. -/
theorem clientRead_swallows_errors {Hs : Type}
    (bodyRead : Nat → Bytes → Except TlsErrorKind (Hs × Bytes))
    (s : TlsReaderSt) (buf : Bytes) (len : Nat) :
    (∀ e, clientRead bodyRead s buf len ≠ .err e) ∧
    (∀ m s1 b1, clientRead bodyRead s buf len = .ok (m, s1, b1) → m ≤ len) :=
  clientReadLoop_ok_bound bodyRead (s.stream.length + len) s buf len 0 _
    (by omega) (by omega) rfl

/-- Witness for C1 (amended): a zero-length read returns Ok(0). -/
theorem clientRead_swallows_errors_witness :
    clientRead (fun _ _ => .error .DecodeError : Nat → Bytes → Except TlsErrorKind (Unit × Bytes))
      ⟨[], none, 0, []⟩ [] 0 = .ok (0, ⟨[], none, 0, []⟩, []) ∧ (0 : Nat) ≤ 0 := by
  have h0 : clientRead
      (fun _ _ => .error .DecodeError : Nat → Bytes → Except TlsErrorKind (Unit × Bytes))
      ⟨[], none, 0, []⟩ [] 0 = .ok (0, ⟨[], none, 0, []⟩, []) := by
    unfold clientRead
    rw [clientReadLoop]
    rw [dif_neg (show ¬((0 : Nat) < 0) from by decide)]
  exact ⟨h0, (clientRead_swallows_errors _ _ _ _).2 0 _ [] h0⟩

/-- Counterexample for C1: with a cipher installed and a protocol failure
on the first record (unknown content type 0x99 = 153), `read` returns
Ok(0); it does not return an error as the claim states. -/
theorem clientRead_protocol_failure_returns_ok_cex :
    readRecord ⟨[153], some ⟨fun _ dat _ => .ok dat, 0⟩, 0, []⟩ =
      .err .UnexpectedMessage ∧
    clientRead
      (fun _ _ => .error .DecodeError : Nat → Bytes → Except TlsErrorKind (Unit × Bytes))
      ⟨[153], some ⟨fun _ dat _ => .ok dat, 0⟩, 0, []⟩ [] 1 =
      .ok (0, ⟨[153], some ⟨fun _ dat _ => .ok dat, 0⟩, 0, []⟩, []) := by
  have hrec : readRecord ⟨[153], some ⟨fun _ dat _ => .ok dat, 0⟩, 0, []⟩ =
      .err .UnexpectedMessage := rfl
  have hloop : readMessageLoop
      (fun _ _ => .error .DecodeError : Nat → Bytes → Except TlsErrorKind (Unit × Bytes))
      ⟨[153], some ⟨fun _ dat _ => .ok dat, 0⟩, 0, []⟩ = .err .UnexpectedMessage := by
    rw [readMessageLoop]
    split
    · rename_i e heq
      rw [hrec] at heq
      cases heq
      rfl
    · rename_i heq
      rw [hrec] at heq
      cases heq
    · rename_i record s2 heq
      rw [hrec] at heq
      cases heq
  have hmsg : readMessage
      (fun _ _ => .error .DecodeError : Nat → Bytes → Except TlsErrorKind (Unit × Bytes))
      ⟨[153], some ⟨fun _ dat _ => .ok dat, 0⟩, 0, []⟩ = .err .UnexpectedMessage := by
    simp only [readMessage,
      show getMessage
        (fun _ _ => .error .DecodeError : Nat → Bytes → Except TlsErrorKind (Unit × Bytes))
        ([] : Bytes) = Except.ok none from rfl, hloop]
  have happ : readApplicationData
      (fun _ _ => .error .DecodeError : Nat → Bytes → Except TlsErrorKind (Unit × Bytes))
      ⟨[153], some ⟨fun _ dat _ => .ok dat, 0⟩, 0, []⟩ = .err .UnexpectedMessage := by
    simp only [readApplicationData, hmsg]
  refine ⟨hrec, ?_⟩
  unfold clientRead
  rw [clientReadLoop]
  rw [dif_pos (show (0 : Nat) < 1 from by decide)]
  rw [dif_pos (show ([] : Bytes).length = 0 from rfl)]
  split
  · rfl
  · rename_i heq
    rw [happ] at heq
    cases heq
  · rename_i data s1 heq
    rw [happ] at heq
    cases heq

/-- C9. During the client handshake, the received ServerHello is validated:
a version other than (3,3), a cipher suite differing from the single
offered suite, or a compression method other than null makes the handshake
fail with IllegalParameter. -/
theorem serverHello_validation (sh : ServerHello) (rest : List Handshake)
    (hbad : (sh.server_version.major, sh.server_version.minor) ≠ TLS_VERSION ∨
            sh.cipher_suite ≠ CipherSuite.TLS_ECDHE_RSA_WITH_CHACHA20_POLY1305_SHA256 ∨
            sh.compression_method ≠ CompressionMethod.null) :
    clientHandshakeReceive (.server_hello sh :: rest) = .error .IllegalParameter := by
  simp only [clientHandshakeReceive]
  by_cases h1 : (sh.server_version.major, sh.server_version.minor) ≠ TLS_VERSION
  · rw [if_pos h1]
  · rw [if_neg h1]
    by_cases h2 : sh.cipher_suite ≠ CipherSuite.TLS_ECDHE_RSA_WITH_CHACHA20_POLY1305_SHA256
    · rw [if_pos h2]
    · rw [if_neg h2]
      by_cases h3 : sh.compression_method ≠ CompressionMethod.null
      · rw [if_pos h3]
      · rcases hbad with hb | hb | hb
        · exact absurd (not_not.mp h1) hb
        · exact absurd (not_not.mp h2) hb
        · exact absurd (not_not.mp h3) hb

/-- Witness for C9: a ServerHello with version (3,1) fails with
IllegalParameter. -/
theorem serverHello_validation_witness :
    ((((⟨⟨3, 1⟩, [], [], .TLS_ECDHE_RSA_WITH_CHACHA20_POLY1305_SHA256, .null, none⟩ :
        ServerHello)).server_version.major,
      ((⟨⟨3, 1⟩, [], [], .TLS_ECDHE_RSA_WITH_CHACHA20_POLY1305_SHA256, .null, none⟩ :
        ServerHello)).server_version.minor) ≠ TLS_VERSION ∨
      ((⟨⟨3, 1⟩, [], [], .TLS_ECDHE_RSA_WITH_CHACHA20_POLY1305_SHA256, .null, none⟩ :
        ServerHello)).cipher_suite ≠ CipherSuite.TLS_ECDHE_RSA_WITH_CHACHA20_POLY1305_SHA256 ∨
      ((⟨⟨3, 1⟩, [], [], .TLS_ECDHE_RSA_WITH_CHACHA20_POLY1305_SHA256, .null, none⟩ :
        ServerHello)).compression_method ≠ CompressionMethod.null) ∧
    clientHandshakeReceive
      [.server_hello ⟨⟨3, 1⟩, [], [], .TLS_ECDHE_RSA_WITH_CHACHA20_POLY1305_SHA256, .null, none⟩] =
      .error .IllegalParameter :=
  ⟨by decide,
    serverHello_validation
      ⟨⟨3, 1⟩, [], [], .TLS_ECDHE_RSA_WITH_CHACHA20_POLY1305_SHA256, .null, none⟩ []
      (by decide)⟩

/-- Counterexample for C2: a CertificateRequest arriving between
Certificate and ServerKeyExchange makes the handshake fail with
UnexpectedMessage — it is not accepted and ignored; without the
CertificateRequest the same exchange succeeds. -/
theorem certificateRequest_rejected_cex :
    clientHandshakeReceive
      [.server_hello ⟨⟨3, 3⟩, [], [], .TLS_ECDHE_RSA_WITH_CHACHA20_POLY1305_SHA256, .null, none⟩,
       .certificate [], .certificate_request ⟨[], [], []⟩,
       .server_key_exchange [], .server_hello_done] = .error .UnexpectedMessage ∧
    clientHandshakeReceive
      [.server_hello ⟨⟨3, 3⟩, [], [], .TLS_ECDHE_RSA_WITH_CHACHA20_POLY1305_SHA256, .null, none⟩,
       .certificate [], .server_key_exchange [], .server_hello_done] =
      .ok (⟨⟨3, 3⟩, [], [], .TLS_ECDHE_RSA_WITH_CHACHA20_POLY1305_SHA256, .null, none⟩,
           [], [], []) :=
  ⟨rfl, rfl⟩

/-- C2 (amended). If a CertificateRequest arrives from the server between
Certificate and ServerKeyExchange, the handshake does NOT ignore it: the
`expect!(server_key_exchange)` step fails with UnexpectedMessage (client
certificates are unsupported). -/
theorem certificateRequest_rejected (sh : ServerHello) (certs : List Bytes)
    (cr : CertificateRequest) (rest : List Handshake)
    (hver : (sh.server_version.major, sh.server_version.minor) = TLS_VERSION)
    (hsuite : sh.cipher_suite = CipherSuite.TLS_ECDHE_RSA_WITH_CHACHA20_POLY1305_SHA256)
    (hcomp : sh.compression_method = CompressionMethod.null) :
    clientHandshakeReceive
      (.server_hello sh :: .certificate certs :: .certificate_request cr :: rest) =
      .error .UnexpectedMessage := by
  simp only [clientHandshakeReceive]
  rw [if_neg (not_not_intro hver), if_neg (not_not_intro hsuite),
    if_neg (not_not_intro hcomp)]

/-- Witness for C2 (amended): the concrete exchange of the counterexample. -/
theorem certificateRequest_rejected_witness :
    ((((⟨⟨3, 3⟩, [], [], .TLS_ECDHE_RSA_WITH_CHACHA20_POLY1305_SHA256, .null, none⟩ :
        ServerHello)).server_version.major,
      ((⟨⟨3, 3⟩, [], [], .TLS_ECDHE_RSA_WITH_CHACHA20_POLY1305_SHA256, .null, none⟩ :
        ServerHello)).server_version.minor) = TLS_VERSION) ∧
    clientHandshakeReceive
      [.server_hello ⟨⟨3, 3⟩, [], [], .TLS_ECDHE_RSA_WITH_CHACHA20_POLY1305_SHA256, .null, none⟩,
       .certificate [], .certificate_request ⟨[], [], []⟩,
       .server_key_exchange [], .server_hello_done] = .error .UnexpectedMessage :=
  ⟨by decide,
    certificateRequest_rejected
      ⟨⟨3, 3⟩, [], [], .TLS_ECDHE_RSA_WITH_CHACHA20_POLY1305_SHA256, .null, none⟩
      [] ⟨[], [], []⟩ [.server_key_exchange [], .server_hello_done]
      (by decide) (by decide) (by decide)⟩

/-- Helper: slices of the PRF stream have the stated length. -/
theorem prfSlice_length (s sd : Bytes) (k n : Nat) : (prfSlice s sd k n).length = n := by
  simp [prfSlice]

/-- Helper: PRF output blocks are 32 bytes. -/
theorem prfBlock_length (s sd : Bytes) (i : Nat) : (prfBlock s sd i).length = 32 :=
  hmac_sha256_length _ _

/-- Helper: stream byte `32 i + j` lives in block `i`. -/
theorem prfByteAt_block (s sd : Bytes) (i j : Nat) (hj : j < 32) :
    prfByteAt s sd (32 * i + j) = (prfBlock s sd i).getD j 0 := by
  unfold prfByteAt
  rw [show (32 * i + j) / 32 = i from by omega, show (32 * i + j) % 32 = j from by omega]

/-- Helper: a prefix of a stream slice is the shorter slice. -/
theorem prfSlice_take (s sd : Bytes) (k m t : Nat) (ht : t ≤ m) :
    (prfSlice s sd k m).take t = prfSlice s sd k t := by
  apply List.ext_getElem
  · simp [prfSlice]
    omega
  · intro j h1 h2
    simp [prfSlice]

/-- Helper: dropping from a stream slice shifts its start. -/
theorem prfSlice_drop (s sd : Bytes) (k m t : Nat) :
    (prfSlice s sd k m).drop t = prfSlice s sd (k + t) (m - t) := by
  apply List.ext_getElem
  · simp [prfSlice]
  · intro j h1 h2
    simp [prfSlice]
    congr 1
    omega

/-- Helper: adjacent stream slices concatenate. -/
theorem prfSlice_append (s sd : Bytes) (k a b : Nat) :
    prfSlice s sd k a ++ prfSlice s sd (k + a) b = prfSlice s sd k (a + b) := by
  unfold prfSlice
  rw [List.range_add, List.map_append, List.map_map]
  congr 1
  apply List.map_congr_left
  intro t _
  simp only [Function.comp]
  congr 1
  omega

/-- Helper: a prefix of block `i` is a stream slice at `32 i`. -/
theorem prfBlock_take (s sd : Bytes) (i t : Nat) (ht : t ≤ 32) :
    (prfBlock s sd i).take t = prfSlice s sd (32 * i) t := by
  apply List.ext_getElem
  · simp [prfSlice_length, prfBlock_length]
    omega
  · intro j h1 h2
    have hj : j < 32 := by
      simp [prfBlock_length] at h1
      omega
    simp [prfSlice]
    rw [prfByteAt_block s sd i j hj]
    exact (List.getD_eq_getElem _ 0 (by rw [prfBlock_length]; omega)).symm

/-- Helper: the remainder of block `i` after `t` bytes is the stream slice
starting at `32 i + t`. -/
theorem prfBlock_drop (s sd : Bytes) (i t : Nat) (ht : t ≤ 32) :
    (prfBlock s sd i).drop t = prfSlice s sd (32 * i + t) (32 - t) := by
  apply List.ext_getElem
  · simp [prfSlice_length, prfBlock_length]
  · intro j h1 h2
    have hj : t + j < 32 := by
      simp [prfBlock_length] at h1
      omega
    simp [prfSlice]
    rw [show 32 * i + t + j = 32 * i + (t + j) from by omega,
      prfByteAt_block s sd i (t + j) hj]
    exact (List.getD_eq_getElem _ 0 (by rw [prfBlock_length]; omega)).symm

/-- Helper: a stream slice of at least a block starting at a block boundary
splits off that whole block. -/
theorem prfSlice_block_split (s sd : Bytes) (i m : Nat) (hm : 32 ≤ m) :
    prfSlice s sd (32 * i) m = prfBlock s sd i ++ prfSlice s sd (32 * (i + 1)) (m - 32) := by
  have hb : prfBlock s sd i = prfSlice s sd (32 * i) 32 := by
    rw [← prfBlock_take s sd i 32 (Nat.le_refl 32),
      show (32 : Nat) = (prfBlock s sd i).length from (prfBlock_length s sd i).symm,
      List.take_length]
  rw [hb]
  have hap := prfSlice_append s sd (32 * i) 32 (m - 32)
  rw [show 32 * i + 32 = 32 * (i + 1) from by omega] at hap
  rw [show (32 : Nat) + (m - 32) = m from by omega] at hap
  exact hap.symm

/-- Helper: the `while` loop of `get_bytes`, entered at a block boundary
`32 i` with an empty internal buffer, appends exactly the next
`size - ret.length` stream bytes and leaves a well-formed PRF state. -/
theorem Prf.fill_spec (s sd : Bytes) :
    ∀ (n : Nat) (p : Prf) (ret : Bytes) (size i : Nat),
      size - ret.length ≤ n →
      p.secret = s → p.seed = sd → p.a = prfA s sd i → p.buf = [] →
      ret.length ≤ size →
      (Prf.fill p ret size).1 = ret ++ prfSlice s sd (32 * i) (size - ret.length) ∧
      PrfGoodAt s sd (Prf.fill p ret size).2 (32 * i + (size - ret.length)) := by
  intro n
  induction n with
  | zero =>
    intro p ret size i hn hs hsd ha hbuf hle
    have hstop : ¬(ret.length < size) := by omega
    rw [Prf.fill, dif_neg hstop]
    have hz : size - ret.length = 0 := by omega
    rw [hz]
    refine ⟨by simp [prfSlice], hs, hsd, i, ha, ?_, by omega, by omega⟩
    rw [hbuf]
    have : 32 * i - (32 * i + 0) = 0 := by omega
    rw [this]
    simp [prfSlice]
  | succ nk ih =>
    intro p ret size i hn hs hsd ha hbuf hle
    rw [Prf.fill]
    by_cases hlt : ret.length < size
    · rw [dif_pos hlt]
      have hnb1 : (p.nextBlock).1 = prfBlock s sd i := by
        simp [Prf.nextBlock, hs, hsd, ha, prfBlock]
      have hnb2 : (p.nextBlock).2 = { p with a := prfA s sd (i + 1) } := by
        simp only [Prf.nextBlock]
        rw [hs, ha, show hmac_sha256 s (prfA s sd i) = prfA s sd (i + 1) from rfl]
      simp only []
      by_cases h32 : 32 < size - ret.length
      · rw [if_pos h32]
        rw [hnb1, hnb2]
        have hlen : (ret ++ prfBlock s sd i).length = ret.length + 32 := by
          simp [prfBlock_length]
        obtain ⟨h1, h2⟩ := ih { p with a := prfA s sd (i + 1) } (ret ++ prfBlock s sd i)
          size (i + 1) (by rw [hlen]; omega) (by simp [hs]) (by simp [hsd]) (by simp)
          (by simp [hbuf]) (by rw [hlen]; omega)
        constructor
        · rw [h1, hlen, List.append_assoc,
            show size - (ret.length + 32) = size - ret.length - 32 from by omega,
            prfSlice_block_split s sd i (size - ret.length) (by omega)]
        · rw [hlen] at h2
          rw [show 32 * (i + 1) + (size - (ret.length + 32)) =
            32 * i + (size - ret.length) from by omega] at h2
          exact h2
      · rw [if_neg h32]
        rw [hnb1, hnb2]
        constructor
        · simp only []
          congr 1
          exact prfBlock_take s sd i (size - ret.length) (by omega)
        · refine ⟨by simp [hs], by simp [hsd], i + 1, by simp, ?_, by omega, by omega⟩
          simp only []
          rw [prfBlock_drop s sd i (size - ret.length) (by omega)]
          congr 1
          omega
    · rw [dif_neg hlt]
      have hz : size - ret.length = 0 := by omega
      rw [hz]
      refine ⟨by simp [prfSlice], hs, hsd, i, ha, ?_, by omega, by omega⟩
      rw [hbuf]
      have : 32 * i - (32 * i + 0) = 0 := by omega
      rw [this]
      simp [prfSlice]

/-- Helper: `get_bytes` on a well-formed PRF state at stream position `k`
returns exactly stream bytes `k .. k+size-1` and leaves a well-formed state
at `k + size`. -/
theorem Prf.getBytes_spec (s sd : Bytes) (p : Prf) (k size : Nat)
    (hg : PrfGoodAt s sd p k) :
    (p.getBytes size).1 = prfSlice s sd k size ∧
    PrfGoodAt s sd (p.getBytes size).2 (k + size) := by
  obtain ⟨hs, hsd, i, ha, hbuf, hk, hm⟩ := hg
  have hblen : p.buf.length = 32 * i - k := by rw [hbuf, prfSlice_length]
  unfold Prf.getBytes
  by_cases hb0 : p.buf.length > 0
  · rw [if_pos hb0]
    by_cases hbs : p.buf.length ≤ size
    · rw [if_pos hbs]
      obtain ⟨h1, h2⟩ := Prf.fill_spec s sd size { p with buf := [] } p.buf size i
        (by omega) (by simp [hs]) (by simp [hsd]) (by simp [ha]) (by simp) (by omega)
      constructor
      · rw [h1, hblen, hbuf]
        have hap := prfSlice_append s sd k (32 * i - k) (size - (32 * i - k))
        rw [show k + (32 * i - k) = 32 * i from by omega] at hap
        rw [show 32 * i - k + (size - (32 * i - k)) = size from by omega] at hap
        exact hap
      · rw [hblen] at h2
        rw [show 32 * i + (size - (32 * i - k)) = k + size from by omega] at h2
        exact h2
    · rw [if_neg hbs]
      have htlen : (p.buf.take size).length = size := by
        simp
        omega
      rw [Prf.fill, dif_neg (by rw [htlen]; omega)]
      constructor
      · rw [hbuf, prfSlice_take s sd k (32 * i - k) size (by omega)]
      · refine ⟨by simp [hs], by simp [hsd], i, by simp [ha], ?_, by omega, by omega⟩
        simp only []
        rw [hbuf, prfSlice_drop]
        congr 1
        omega
  · rw [if_neg hb0]
    have hke : 32 * i - k = 0 := by omega
    have hbe : p.buf = [] := by
      rw [hbuf, hke]
      simp [prfSlice]
    obtain ⟨h1, h2⟩ := Prf.fill_spec s sd size p [] size i
      (by simp) hs hsd ha hbe (by simp)
    constructor
    · rw [h1]
      simp only [List.nil_append, List.length_nil, Nat.sub_zero]
      rw [show 32 * i = k from by omega]
    · simp only [List.length_nil, Nat.sub_zero] at h2
      rw [show 32 * i + size = k + size from by omega] at h2
      exact h2

/-- Helper: `n` successive `get_bytes(1)` calls deliver stream bytes
`k .. k+n-1`. -/
theorem Prf.getBytesTimes_spec (s sd : Bytes) :
    ∀ (n : Nat) (p : Prf) (k : Nat), PrfGoodAt s sd p k →
      (p.getBytesTimes n).1 = prfSlice s sd k n ∧
      PrfGoodAt s sd (p.getBytesTimes n).2 (k + n) := by
  intro n
  induction n with
  | zero =>
    intro p k hg
    exact ⟨by simp [Prf.getBytesTimes, prfSlice], by simpa [Prf.getBytesTimes] using hg⟩
  | succ m ih =>
    intro p k hg
    obtain ⟨h1, h2⟩ := Prf.getBytes_spec s sd p k 1 hg
    obtain ⟨h3, h4⟩ := ih (p.getBytes 1).2 (k + 1) h2
    unfold Prf.getBytesTimes
    simp only []
    constructor
    · rw [h1, h3]
      have hap := prfSlice_append s sd k 1 m
      rw [show (1 : Nat) + m = m + 1 from by omega] at hap
      exact hap
    · rw [show k + (m + 1) = k + 1 + m from by omega]
      exact h4

/-- Helper: a fresh PRF is a well-formed state at stream position 0. -/
theorem Prf.new_good (s sd : Bytes) : PrfGoodAt s sd (Prf.new s sd) 0 :=
  ⟨rfl, rfl, 0, rfl, by simp [Prf.new, prfSlice], by omega, by omega⟩

/-- C8. For every (secret, seed) pair within the source's HMAC key bound
(at most 64 bytes of secret; longer keys hit `unimplemented!()`), the PRF
byte stream is independent of chunking: the concatenation of 100 successive
`get_bytes(1)` calls equals the single `get_bytes(100)` of a fresh `Prf`
with the same secret and seed. -/
theorem prf_streaming (secret seed : Bytes) (hkey : secret.length ≤ 64) :
    ((Prf.new secret seed).getBytesTimes 100).1 =
      ((Prf.new secret seed).getBytes 100).1 := by
  obtain ⟨h1, _⟩ := Prf.getBytesTimes_spec secret seed 100 (Prf.new secret seed) 0
    (Prf.new_good secret seed)
  obtain ⟨h2, _⟩ := Prf.getBytes_spec secret seed (Prf.new secret seed) 0 100
    (Prf.new_good secret seed)
  rw [h1, h2]

/-- Witness for C8: the empty secret and seed (the source's own test
vector). -/
theorem prf_streaming_witness :
    ([] : Bytes).length ≤ 64 ∧
      ((Prf.new [] []).getBytesTimes 100).1 = ((Prf.new [] []).getBytes 100).1 :=
  ⟨by decide, prf_streaming [] [] (by decide)⟩

/-- crypto/chacha20.rs `to_le_u32!`: four little-endian bytes as a `u32`. -/
def toLeU32 (e : Bytes) (i : Nat) : Nat :=
e.getD i 0 ||| (e.getD (i + 1) 0 <<< 8) ||| (e.getD (i + 2) 0 <<< 16) ||| (e.getD (i + 3) 0 <<< 24)

/-- A `u32` as its four little-endian bytes (the serialisation loop of
`ChaCha20::next` and the tail of `poly1305::authenticate`). -/
def u32LeBytes (x : Nat) : Bytes :=
[x % 256, (x >>> 8) % 256, (x >>> 16) % 256, (x >>> 24) % 256]

/-- crypto/chacha20.rs `ChaCha20`: the sixteen 32-bit state words. -/
structure ChaCha20 where
  v0 : Nat
  v1 : Nat
  v2 : Nat
  v3 : Nat
  v4 : Nat
  v5 : Nat
  v6 : Nat
  v7 : Nat
  v8 : Nat
  v9 : Nat
  v10 : Nat
  v11 : Nat
  v12 : Nat
  v13 : Nat
  v14 : Nat
  v15 : Nat
deriving Repr

/-- The state `ChaCha20::new` builds: four sigma constants, eight key words,
two counter words (zero), two nonce words. -/
def chachaInit (key nonce : Bytes) : ChaCha20 where
  v0 := 0x61707865
  v1 := 0x3320646e
  v2 := 0x79622d32
  v3 := 0x6b206574
  v4 := toLeU32 key 0
  v5 := toLeU32 key 4
  v6 := toLeU32 key 8
  v7 := toLeU32 key 12
  v8 := toLeU32 key 16
  v9 := toLeU32 key 20
  v10 := toLeU32 key 24
  v11 := toLeU32 key 28
  v12 := 0
  v13 := 0
  v14 := toLeU32 nonce 0
  v15 := toLeU32 nonce 4

/-- crypto/chacha20.rs `ChaCha20::new`: asserts a 32-byte key and an 8-byte
nonce (an `assert_eq!` failure is a panic), then builds the state. -/
def ChaCha20.new (key nonce : Bytes) : RRes ChaCha20 :=
if key.length = 32 ∧ nonce.length = 8 then RRes.ok (chachaInit key nonce) else RRes.panic

/-- crypto/chacha20.rs `rot!`: rotate a `u32` left by `e` (0 < e < 32). -/
def rotl32 (a e : Nat) : Nat :=
((a <<< e) % 4294967296) ||| (a >>> (32 - e))

/-- crypto/chacha20.rs `quarter_round!` on four state words; `u32` additions
wrap. -/
def chachaQuarterRound (a b c d : Nat) : Nat × Nat × Nat × Nat :=
let a := (a + b) % 4294967296
let d := rotl32 (d ^^^ a) 16
let c := (c + d) % 4294967296
let b := rotl32 (b ^^^ c) 12
let a := (a + b) % 4294967296
let d := rotl32 (d ^^^ a) 8
let c := (c + d) % 4294967296
let b := rotl32 (b ^^^ c) 7
(a, b, c, d)

/-- One iteration of the `for _ in 0..10` loop of `round20`: a column round
then a diagonal round. -/
def chachaDoubleRound (s : ChaCha20) : ChaCha20 :=
let q0 := chachaQuarterRound s.v0 s.v4 s.v8 s.v12
let q1 := chachaQuarterRound s.v1 s.v5 s.v9 s.v13
let q2 := chachaQuarterRound s.v2 s.v6 s.v10 s.v14
let q3 := chachaQuarterRound s.v3 s.v7 s.v11 s.v15
let d0 := chachaQuarterRound q0.1 q1.2.1 q2.2.2.1 q3.2.2.2
let d1 := chachaQuarterRound q1.1 q2.2.1 q3.2.2.1 q0.2.2.2
let d2 := chachaQuarterRound q2.1 q3.2.1 q0.2.2.1 q1.2.2.2
let d3 := chachaQuarterRound q3.1 q0.2.1 q1.2.2.1 q2.2.2.2
{ v0 := d0.1, v1 := d1.1, v2 := d2.1, v3 := d3.1,
  v4 := d3.2.1, v5 := d0.2.1, v6 := d1.2.1, v7 := d2.2.1,
  v8 := d2.2.2.1, v9 := d3.2.2.1, v10 := d0.2.2.1, v11 := d1.2.2.1,
  v12 := d1.2.2.2, v13 := d2.2.2.2, v14 := d3.2.2.2, v15 := d0.2.2.2 }

/-- crypto/chacha20.rs `ChaCha20::round20`: ten double rounds, then a
wrapping addition of the input state. -/
def ChaCha20.round20 (s : ChaCha20) : ChaCha20 :=
let v := (List.range 10).foldl (fun st _ => chachaDoubleRound st) s
{ v0 := (v.v0 + s.v0) % 4294967296, v1 := (v.v1 + s.v1) % 4294967296,
  v2 := (v.v2 + s.v2) % 4294967296, v3 := (v.v3 + s.v3) % 4294967296,
  v4 := (v.v4 + s.v4) % 4294967296, v5 := (v.v5 + s.v5) % 4294967296,
  v6 := (v.v6 + s.v6) % 4294967296, v7 := (v.v7 + s.v7) % 4294967296,
  v8 := (v.v8 + s.v8) % 4294967296, v9 := (v.v9 + s.v9) % 4294967296,
  v10 := (v.v10 + s.v10) % 4294967296, v11 := (v.v11 + s.v11) % 4294967296,
  v12 := (v.v12 + s.v12) % 4294967296, v13 := (v.v13 + s.v13) % 4294967296,
  v14 := (v.v14 + s.v14) % 4294967296, v15 := (v.v15 + s.v15) % 4294967296 }

/-- crypto/chacha20.rs `ChaCha20::next`: the 64-byte keystream block of the
current state (words serialised little-endian), incrementing counter word 12
(word 13 never increases in TLS). -/
def ChaCha20.next (c : ChaCha20) : Bytes × ChaCha20 :=
let n := c.round20
(u32LeBytes n.v0 ++ u32LeBytes n.v1 ++ u32LeBytes n.v2 ++ u32LeBytes n.v3 ++
 u32LeBytes n.v4 ++ u32LeBytes n.v5 ++ u32LeBytes n.v6 ++ u32LeBytes n.v7 ++
 u32LeBytes n.v8 ++ u32LeBytes n.v9 ++ u32LeBytes n.v10 ++ u32LeBytes n.v11 ++
 u32LeBytes n.v12 ++ u32LeBytes n.v13 ++ u32LeBytes n.v14 ++ u32LeBytes n.v15,
 { c with v12 := (c.v12 + 1) % 4294967296 })

/-- crypto/chacha20.rs `ChaCha20::encrypt`: XOR each 64-byte chunk of the
data with the next keystream block (an empty input consumes no block). -/
def ChaCha20.encrypt (c : ChaCha20) (data : Bytes) : Bytes × ChaCha20 :=
if h : data = [] then ([], c)
else
  let p := c.next
  let x := (p.1.zip (data.take 64)).map fun q => q.1 ^^^ q.2
  let rest := p.2.encrypt (data.drop 64)
  (x ++ rest.1, rest.2)
termination_by data.length
decreasing_by
  simp only [List.length_drop]
  have : 0 < data.length := List.length_pos.mpr h
  omega

/-- crypto/poly1305.rs `Int1305`: a value in radix-2^26 with five lazily
normalised digits. -/
structure Int1305 where
  v : List Nat
deriving Repr

/-- crypto/poly1305.rs `ZERO`. -/
def int1305Zero : Int1305 := ⟨[0, 0, 0, 0, 0]⟩

/-- crypto/poly1305.rs `Int1305::choose` (from `choose_impl!`): constant-time
select of `b` when `flag = 1`, `a` when `flag = 0`. -/
def Int1305.choose (flag : Nat) (a b : Int1305) : Int1305 :=
⟨(List.range 5).map fun i =>
  a.v.getD i 0 ^^^ ((flag * (a.v.getD i 0 ^^^ b.v.getD i 0)) % 4294967296)⟩

/-- crypto/poly1305.rs `Int1305::add`: digit-wise `u32` addition, no
reduction. -/
def Int1305.add (a b : Int1305) : Int1305 :=
⟨(List.range 5).map fun i => (a.v.getD i 0 + b.v.getD i 0) % 4294967296⟩

/-- crypto/poly1305.rs `reduce_digit!`: add the running carry to a `u64`
digit, keep the low 26 bits, carry the rest. -/
def int1305ReduceDigit (v carry : Nat) : Nat × Nat :=
let v := (v + carry) % 18446744073709551616
(v &&& 67108863, v >>> 26)

/-- crypto/poly1305.rs `Int1305::mult`: schoolbook product with the
`5 * 2^(-130)` folding, followed by three carry-reduction passes (the second
and third multiply the outgoing carry by 5), truncated back to `u32`
digits. -/
def Int1305.mult (a b : Int1305) : Int1305 :=
let av := fun i => a.v.getD i 0
let bv := fun j => b.v.getD j 0
let b5 := fun j => (bv j * 5) % 4294967296
let m := fun i j => (av i * bv j) % 18446744073709551616
let m5 := fun i j => (av i * b5 j) % 18446744073709551616
let w0 := (m 0 0 + m5 1 4 + m5 2 3 + m5 3 2 + m5 4 1) % 18446744073709551616
let w1 := (m 0 1 + m 1 0 + m5 2 4 + m5 3 3 + m5 4 2) % 18446744073709551616
let w2 := (m 0 2 + m 1 1 + m 2 0 + m5 3 4 + m5 4 3) % 18446744073709551616
let w3 := (m 0 3 + m 1 2 + m 2 1 + m 3 0 + m5 4 4) % 18446744073709551616
let w4 := (m 0 4 + m 1 3 + m 2 2 + m 3 1 + m 4 0) % 18446744073709551616
let p0 := int1305ReduceDigit w0 0
let p1 := int1305ReduceDigit w1 p0.2
let p2 := int1305ReduceDigit w2 p1.2
let p3 := int1305ReduceDigit w3 p2.2
let p4 := int1305ReduceDigit w4 p3.2
let ca := (p4.2 * 5) % 18446744073709551616
let q0 := int1305ReduceDigit p0.1 ca
let q1 := int1305ReduceDigit p1.1 q0.2
let q2 := int1305ReduceDigit p2.1 q1.2
let q3 := int1305ReduceDigit p3.1 q2.2
let q4 := int1305ReduceDigit p4.1 q3.2
let cb := (q4.2 * 5) % 18446744073709551616
let r0 := int1305ReduceDigit q0.1 cb
let r1 := int1305ReduceDigit q1.1 r0.2
let r2 := int1305ReduceDigit q2.1 r1.2
let r3 := int1305ReduceDigit q3.1 r2.2
let r4 := int1305ReduceDigit q4.1 r3.2
⟨[r0.1 % 4294967296, r1.1 % 4294967296, r2.1 % 4294967296,
  r3.1 % 4294967296, r4.1 % 4294967296]⟩

/-- crypto/poly1305.rs `Int1305::from_bytes`: split a 16-byte little-endian
number into five 26-bit digits (the `b4!` / `b3!` macros at offsets 0, 3, 6,
9, 13). -/
def int1305FromBytes (msg : Bytes) : Int1305 :=
let b := fun i => msg.getD i 0
⟨[(b 0 >>> 0) ||| (b 1 <<< 8) ||| (b 2 <<< 16) ||| ((b 3 &&& 3) <<< 24),
  (b 3 >>> 2) ||| (b 4 <<< 6) ||| (b 5 <<< 14) ||| ((b 6 &&& 15) <<< 22),
  (b 6 >>> 4) ||| (b 7 <<< 4) ||| (b 8 <<< 12) ||| ((b 9 &&& 63) <<< 20),
  (b 9 >>> 6) ||| (b 10 <<< 2) ||| (b 11 <<< 10) ||| ((b 12 &&& 255) <<< 18),
  (b 13 >>> 0) ||| (b 14 <<< 8) ||| (b 15 <<< 16)]⟩

/-- crypto/poly1305.rs `Int1305::normalize`: add `p5 = 2^130 - 5 + 2^130
(0b111111 << 26 in the top digit)` with carries, then select the reduced
representative by the top bit. -/
def Int1305.normalize (a : Int1305) : Int1305 :=
let t0 := (a.v.getD 0 0 + 5) % 18446744073709551616
let t1 := (a.v.getD 1 0 + (t0 >>> 26)) % 18446744073709551616
let t2 := (a.v.getD 2 0 + (t1 >>> 26)) % 18446744073709551616
let t3 := (a.v.getD 3 0 + (t2 >>> 26)) % 18446744073709551616
let d4 := (a.v.getD 4 0 + (63 <<< 26) + (t3 >>> 26)) % 4294967296
let retB : Int1305 :=
  ⟨[t0 &&& 67108863, t1 &&& 67108863, t2 &&& 67108863, t3 &&& 67108863, d4]⟩
Int1305.choose (d4 >>> 31) retB a

/-- crypto/poly1305.rs `authenticate` clamping: mask bytes 3, 7, 11, 15 of r
with 15 and bytes 4, 8, 12 with 252. -/
def int1305Clamp (r : Bytes) : Bytes :=
(List.range 16).map fun i =>
  if i = 3 ∨ i = 7 ∨ i = 11 ∨ i = 15 then r.getD i 0 &&& 15
  else if i = 4 ∨ i = 8 ∨ i = 12 then r.getD i 0 &&& 252
  else r.getD i 0

/-- The `c.v[flag_pos / 26] |= 1 << (flag_pos % 26)` step: append the 1 bit
above a chunk of `mLen` bytes. -/
def int1305SetFlag (c : Int1305) (mLen : Nat) : Int1305 :=
let fp := mLen * 8
⟨c.v.set (fp / 26) (c.v.getD (fp / 26) 0 ||| ((1 <<< (fp % 26)) % 4294967296))⟩

/-- The Horner loop of `authenticate`: chunk `i` is the next 16 message
bytes zero-padded (the last chunk keeps `len - 16 i` bytes), with the flag
bit appended; `h = (c + h) * r` each step. -/
def poly1305Loop (msg : Bytes) (r : Int1305) (len chunks : Nat) : Int1305 :=
(List.range chunks).foldl (fun h i =>
  let mLen := if i < chunks - 1 then 16 else len - 16 * i
  let mb := (List.range 16).map fun j => if j < mLen then msg.getD (i * 16 + j) 0 else 0
  let c := int1305SetFlag (int1305FromBytes mb) mLen
  (c.add h).mult r) int1305Zero

/-- The `b!` serialisation of `authenticate`: the low 128 bits of the
normalised accumulator as 16 bytes. -/
def poly1305Serialize (h : Int1305) : Bytes :=
let hv := fun i => h.v.getD i 0
[(hv 0 >>> 0) % 256, (hv 0 >>> 8) % 256, (hv 0 >>> 16) % 256,
 ((hv 0 >>> 24) ||| ((hv 1 &&& 63) <<< 2)) % 256,
 (hv 1 >>> 6) % 256, (hv 1 >>> 14) % 256,
 ((hv 1 >>> 22) ||| ((hv 2 &&& 15) <<< 4)) % 256,
 (hv 2 >>> 4) % 256, (hv 2 >>> 12) % 256,
 ((hv 2 >>> 20) ||| ((hv 3 &&& 3) <<< 6)) % 256,
 (hv 3 >>> 2) % 256, (hv 3 >>> 10) % 256, (hv 3 >>> 18) % 256,
 (hv 4 >>> 0) % 256, (hv 4 >>> 8) % 256, (hv 4 >>> 16) % 256]

/-- The final `h + aes (mod 2^128)` of `authenticate`: four little-endian
`u32` limbs added with carry, re-serialised little-endian. -/
def poly1305AddAes (h aes : Bytes) : Bytes :=
let s0 := (toLeU32 h 0 + toLeU32 aes 0) % 18446744073709551616
let s1 := (toLeU32 h 4 + toLeU32 aes 4 + (s0 >>> 32)) % 18446744073709551616
let s2 := (toLeU32 h 8 + toLeU32 aes 8 + (s1 >>> 32)) % 18446744073709551616
let s3 := (toLeU32 h 12 + toLeU32 aes 12 + (s2 >>> 32)) % 18446744073709551616
u32LeBytes (s0 % 4294967296) ++ u32LeBytes (s1 % 4294967296) ++
u32LeBytes (s2 % 4294967296) ++ u32LeBytes (s3 % 4294967296)

/-- crypto/poly1305.rs `authenticate`: clamp r, run the Horner loop over
16-byte chunks, normalise, serialise, and add the `aes` pad mod 2^128. -/
def poly1305Authenticate (msg r aes : Bytes) : Bytes :=
let rc := int1305FromBytes (int1305Clamp r)
let len := msg.length
let chunks := (len + 15) / 16
poly1305AddAes (poly1305Serialize ((poly1305Loop msg rc len chunks).normalize)) aes

/-- cipher/chacha20_poly1305.rs `compute_mac`: Poly1305 over
`ad ∥ len(ad) ∥ ciphertext ∥ len(ciphertext)` (lengths little-endian u64,
draft-04 order), keyed by the first 32 bytes of the Poly1305 key block. -/
def computeMac (polyKey encrypted ad : Bytes) : Bytes :=
let msg := (ad ++ u64LeArray ad.length) ++ (encrypted ++ u64LeArray encrypted.length)
let r := (List.range 16).map fun i => polyKey.getD i 0
let k := (List.range 16).map fun i => polyKey.getD (16 + i) 0
poly1305Authenticate msg r k

/-- cipher/chacha20_poly1305.rs `ChaCha20Poly1305Encryptor::encrypt`: block
0 keys Poly1305, the rest of the keystream encrypts, the 16-byte tag is
appended. -/
def chaCha20Poly1305Encrypt (key nonce data ad : Bytes) : RRes Bytes :=
match ChaCha20.new key nonce with
| RRes.ok chacha =>
  let p := chacha.next
  let e := p.2.encrypt data
  RRes.ok (e.1 ++ computeMac p.1 e.1 ad)
| RRes.err k => RRes.err k
| RRes.panic => RRes.panic

/-- cipher/chacha20_poly1305.rs `ChaCha20Poly1305Decryptor::decrypt`: reject
short input, recompute the tag over the ciphertext, decrypt, compare tags in
constant time, and fail with `BadRecordMac` on mismatch. -/
def chaCha20Poly1305Decrypt (key nonce data ad : Bytes) :
    RRes (Except TlsErrorKind Bytes) :=
if data.length < 16 then RRes.ok (Except.error TlsErrorKind.BadRecordMac)
else
  let encrypted := data.take (data.length - 16)
  let macExpected := data.drop (data.length - 16)
  match ChaCha20.new key nonce with
  | RRes.ok chacha =>
    let p := chacha.next
    let macComputed := computeMac p.1 encrypted ad
    let plain := p.2.encrypt encrypted
    let diff := (List.range 16).foldl
      (fun d i => d ||| (macComputed.getD i 0 ^^^ macExpected.getD i 0)) 0
    if diff ≠ 0 then RRes.ok (Except.error TlsErrorKind.BadRecordMac)
    else RRes.ok (Except.ok plain.1)
  | RRes.err k => RRes.err k
  | RRes.panic => RRes.panic

/-- Helper: a keystream block is 64 bytes. -/
theorem ChaCha20.next_fst_length (c : ChaCha20) : (c.next).1.length = 64 := by
  simp [ChaCha20.next, u32LeBytes]

/-- Helper: encrypting the empty input leaves the state untouched. -/
theorem ChaCha20.encrypt_nil (c : ChaCha20) : c.encrypt [] = ([], c) := by
  rw [ChaCha20.encrypt]
  exact dif_pos rfl

/-- Helper: the ChaCha20 stream cipher preserves length. -/
theorem chacha_encrypt_length :
    ∀ (n : Nat) (c : ChaCha20) (data : Bytes), data.length ≤ n →
      ((c.encrypt data).1).length = data.length := by
  intro n
  induction n with
  | zero =>
    intro c data h
    have hd : data = [] := List.eq_nil_of_length_eq_zero (by omega)
    rw [hd, ChaCha20.encrypt_nil]
  | succ nk ih =>
    intro c data h
    by_cases hd : data = []
    · rw [hd, ChaCha20.encrypt_nil]
    · rw [ChaCha20.encrypt, dif_neg hd]
      simp only []
      have hpos : 0 < data.length := List.length_pos.mpr hd
      have hrest := ih ((c.next).2) (data.drop 64)
        (by simp only [List.length_drop]; omega)
      simp only [List.length_append, List.length_map, List.length_zip,
        ChaCha20.next_fst_length, List.length_take, hrest, List.length_drop]
      omega

/-- Helper: XORing twice against the same keystream prefix restores the
chunk. -/
theorem zip_xor_cancel :
    ∀ (ks chunk : Bytes), chunk.length ≤ ks.length →
      ((ks.zip ((ks.zip chunk).map fun q => q.1 ^^^ q.2)).map fun q => q.1 ^^^ q.2) = chunk := by
  intro ks
  induction ks with
  | nil =>
    intro chunk h
    simp only [List.length_nil, Nat.le_zero] at h
    rw [List.eq_nil_of_length_eq_zero h]
    rfl
  | cons k ks ih =>
    intro chunk h
    cases chunk with
    | nil => rfl
    | cons b bs =>
      simp only [List.zip_cons_cons, List.map_cons]
      congr 1
      · rw [← Nat.xor_assoc, Nat.xor_self, Nat.zero_xor]
      · exact ih bs (by simp at h; omega)

/-- Helper: running `ChaCha20::encrypt` from the same state over its own
output restores the plaintext (the cipher is an involution per state). -/
theorem chacha_encrypt_inverse :
    ∀ (n : Nat) (c : ChaCha20) (data : Bytes), data.length ≤ n →
      (c.encrypt ((c.encrypt data).1)).1 = data := by
  intro n
  induction n with
  | zero =>
    intro c data h
    have hd : data = [] := List.eq_nil_of_length_eq_zero (by omega)
    rw [hd, ChaCha20.encrypt_nil]
    show (c.encrypt []).1 = []
    rw [ChaCha20.encrypt_nil]
  | succ nk ih =>
    intro c data h
    by_cases hd : data = []
    · rw [hd, ChaCha20.encrypt_nil]
      show (c.encrypt []).1 = []
      rw [ChaCha20.encrypt_nil]
    · have henc : c.encrypt data =
          (((c.next).1.zip (data.take 64)).map (fun q => q.1 ^^^ q.2) ++
            ((c.next).2.encrypt (data.drop 64)).1,
           ((c.next).2.encrypt (data.drop 64)).2) := by
        rw [ChaCha20.encrypt, dif_neg hd]
      have hpos : 0 < data.length := List.length_pos.mpr hd
      have hxlen : (((c.next).1.zip (data.take 64)).map (fun q => q.1 ^^^ q.2)).length =
          min 64 data.length := by
        simp only [List.length_map, List.length_zip, ChaCha20.next_fst_length,
          List.length_take]
        omega
      rw [henc]
      by_cases h64 : data.length ≤ 64
      · have htk : data.take 64 = data := List.take_of_length_le h64
        have hdr : data.drop 64 = [] := List.drop_eq_nil_of_le h64
        rw [htk, hdr, ChaCha20.encrypt_nil]
        simp only [List.append_nil]
        have hct : ((c.next).1.zip data).map (fun q => q.1 ^^^ q.2) ≠ [] := by
          intro hc
          have := congrArg List.length hc
          simp only [List.length_map, List.length_zip, ChaCha20.next_fst_length,
            List.length_nil] at this
          omega
        rw [ChaCha20.encrypt, dif_neg hct]
        simp only []
        have htk2 : (((c.next).1.zip data).map (fun q => q.1 ^^^ q.2)).take 64 =
            ((c.next).1.zip data).map (fun q => q.1 ^^^ q.2) := by
          apply List.take_of_length_le
          simp only [List.length_map, List.length_zip, ChaCha20.next_fst_length]
          omega
        have hdr2 : (((c.next).1.zip data).map (fun q => q.1 ^^^ q.2)).drop 64 = [] := by
          apply List.drop_eq_nil_of_le
          simp only [List.length_map, List.length_zip, ChaCha20.next_fst_length]
          omega
        rw [htk2, hdr2, ChaCha20.encrypt_nil]
        simp only [List.append_nil]
        exact zip_xor_cancel (c.next).1 data
          (by rw [ChaCha20.next_fst_length]; omega)
      · have hx64 : (((c.next).1.zip (data.take 64)).map (fun q => q.1 ^^^ q.2)).length = 64 := by
          rw [hxlen]; omega
        have hct : ((c.next).1.zip (data.take 64)).map (fun q => q.1 ^^^ q.2) ++
            ((c.next).2.encrypt (data.drop 64)).1 ≠ [] := by
          intro hc
          have := congrArg List.length hc
          simp only [List.length_append, hx64, List.length_nil] at this
          omega
        rw [ChaCha20.encrypt, dif_neg hct]
        simp only []
        have htk2 : (((c.next).1.zip (data.take 64)).map (fun q => q.1 ^^^ q.2) ++
            ((c.next).2.encrypt (data.drop 64)).1).take 64 =
            ((c.next).1.zip (data.take 64)).map (fun q => q.1 ^^^ q.2) :=
          List.take_left' hx64
        have hdr2 : (((c.next).1.zip (data.take 64)).map (fun q => q.1 ^^^ q.2) ++
            ((c.next).2.encrypt (data.drop 64)).1).drop 64 =
            ((c.next).2.encrypt (data.drop 64)).1 :=
          List.drop_left' hx64
        rw [htk2, hdr2]
        have hh := zip_xor_cancel (c.next).1 (data.take 64)
          (by rw [ChaCha20.next_fst_length, List.length_take]; omega)
        rw [hh]
        have hih := ih ((c.next).2) (data.drop 64)
          (by rw [List.length_drop]; omega)
        rw [hih]
        exact List.take_append_drop 64 data

/-- Helper: a Poly1305 tag is 16 bytes. -/
theorem poly1305Authenticate_length (msg r aes : Bytes) :
    (poly1305Authenticate msg r aes).length = 16 := by
  simp [poly1305Authenticate, poly1305AddAes, u32LeBytes]

/-- Helper: `compute_mac` yields a 16-byte tag. -/
theorem computeMac_length (polyKey encrypted ad : Bytes) :
    (computeMac polyKey encrypted ad).length = 16 := by
  simp only [computeMac]
  exact poly1305Authenticate_length _ _ _

/-- Helper: the constant-time comparison of a tag with itself reports no
difference. -/
theorem macDiffFold_self (a : Bytes) :
    (List.range 16).foldl (fun d i => d ||| (a.getD i 0 ^^^ a.getD i 0)) 0 = 0 := by
  simp only [Nat.xor_self, Nat.or_zero]
  rfl

/-- Helper: `ChaCha20::new` succeeds on a 32-byte key and 8-byte nonce. -/
theorem ChaCha20.new_ok (key nonce : Bytes) (hk : key.length = 32) (hn : nonce.length = 8) :
    ChaCha20.new key nonce = RRes.ok (chachaInit key nonce) := by
  rw [ChaCha20.new, if_pos ⟨hk, hn⟩]

/-- Supporting lemma for the AEAD round-trip half of the spec's claim: for
every 32-byte key, 8-byte nonce, plaintext and associated data, decrypting
what `ChaCha20Poly1305Encryptor::encrypt` produced returns `Ok` with the
original plaintext (the recomputed tag is the identical `compute_mac`
expression, and XORing twice against the same keystream restores the
data). -/
theorem aead_roundtrip (key nonce m ad ct : Bytes)
    (hk : key.length = 32) (hn : nonce.length = 8)
    (henc : chaCha20Poly1305Encrypt key nonce m ad = RRes.ok ct) :
    chaCha20Poly1305Decrypt key nonce ct ad = RRes.ok (Except.ok m) := by
  rw [chaCha20Poly1305Encrypt, ChaCha20.new_ok key nonce hk hn] at henc
  simp only [] at henc
  cases henc
  rw [chaCha20Poly1305Decrypt]
  have hmaclen : (computeMac ((chachaInit key nonce).next).1
      (((chachaInit key nonce).next).2.encrypt m).1 ad).length = 16 :=
    computeMac_length _ _ _
  have hng : ¬((((chachaInit key nonce).next).2.encrypt m).1 ++
      computeMac ((chachaInit key nonce).next).1
        (((chachaInit key nonce).next).2.encrypt m).1 ad).length < 16 := by
    rw [List.length_append, hmaclen]
    omega
  rw [if_neg hng]
  simp only []
  have hsub : ((((chachaInit key nonce).next).2.encrypt m).1 ++
      computeMac ((chachaInit key nonce).next).1
        (((chachaInit key nonce).next).2.encrypt m).1 ad).length - 16 =
      ((((chachaInit key nonce).next).2.encrypt m).1).length := by
    rw [List.length_append, hmaclen]
    omega
  rw [hsub, List.take_left, List.drop_left, ChaCha20.new_ok key nonce hk hn]
  simp only []
  rw [macDiffFold_self]
  simp only [ne_eq, not_true_eq_false, if_false, ite_false]
  rw [chacha_encrypt_inverse m.length (((chachaInit key nonce).next).2) m (Nat.le_refl _)]

end Suruga
